import Mathlib

/-!
Verification of the hook-slot bookkeeping engine in `src/hooks.js`.

The source file holds two variants of the same runtime: a keyed variant
(slots matched by an explicit string key, kept in a `Map`) and a positional
variant (slots matched by call order through a cursor into an array).  Both
are embedded below: `Hooks.Keyed` models the keyed half, `Hooks.Pos` the
positional half.

Modelling conventions:
* JS values that flow through state/memo slots and dependency arrays are a
  type parameter `V` with decidable equality; `=` on `V` models JS strict
  equality `===` on primitive values.
* Component bodies are a deep embedding `Prog V`: a sequence of hook calls
  whose continuations are Lean functions, so control flow may branch on hook
  results (conditional hook calls, as exercised by the repository's tests).
  A body may also log a value (`emit`, modelling the tests' `log.push`) and
  throw (`throwErr`).
* Closures stored in slots are represented symbolically: a memo/effect
  callback carries a numeric id logged to the event trace when it runs, and
  an effect callback declares the identity (`Option Nat`, `none` = no
  cleanup) of the cleanup it returns.  A `setValue` closure is identified by
  a `setterId` drawn from a per-instance counter at the moment the closure
  is created; closure identity questions become `setterId` equations.
* The process-wide mutable `activeInstance` pointer is passed explicitly and
  returned from `render`, identified by instance id (`Option Nat`, `none` =
  JS `undefined`).
* Side effects observable to the caller (render entries, logged values,
  memo computations, effect runs, cleanup runs) accumulate in an event
  trace.  A JS exception unwinding out of the body is an `err` field in the
  result; state mutated and events emitted before the throw are kept, as in
  JS.
-/

namespace Hooks

/-- Observable events, in the order they happen.  `renderStart id` marks
entry into `render` for the instance with that id and is used to count
synchronous (re-)renders. -/
inductive Event (V : Type) where
  | renderStart (id : Nat)
  | emitted (v : V)
  | compute (fnId : Nat)
  | effectRun (fnId : Nat)
  | cleanupRun (cleanupId : Nat)
  deriving DecidableEq, Repr

/-- Errors thrown by the hook operations themselves:
`invalidContext` is `"Invariant: useState() called outside of a component!"`,
`kindMismatch` is `"Invariant: you broke the rules!"`. -/
inductive HookError where
  | invalidContext
  | kindMismatch
  deriving DecidableEq, Repr

/-- An error unwinding out of a component body: either an exception thrown
by the body's own code, or a hook error propagating through it. -/
inductive RunError where
  | thrown
  | hook (e : HookError)
  deriving DecidableEq, Repr

/-- The kind tag of a slot, the source's `slot.type` string. -/
inductive HookKind where
  | state
  | memo
  | effect
  deriving DecidableEq, Repr

/-- `initialValue` argument of `useState`: a plain value, or a zero-argument
initializer (source: `typeof initialValue === "function" ? initialValue() :
initialValue`). -/
inductive InitialValue (V : Type) where
  | val (v : V)
  | fn (f : Unit → V)

/-- Evaluate an `initialValue` the way `useState` does on first request. -/
def InitialValue.eval : InitialValue V → V
  | .val v => v
  | .fn f => f ()

/-- Argument of a `setValue` call: a literal replacement value, or a
functional update (source: `typeof setter === "function" ?
setter(slot.value) : setter`). -/
inductive SetterArg (V : Type) where
  | val (v : V)
  | fn (f : V → V)

/-- The new value a `setValue` call computes from its argument and the
slot's current value. -/
def SetterArg.eval : SetterArg V → V → V
  | .val v, _ => v
  | .fn f, cur => f cur

variable {V : Type} [DecidableEq V]

/-- The dependency-comparison loop shared by `useMemo` and `useEffect`:
`for (let i = 0; i < dependencies.length; ++i) if (dependencies[i] !==
slot.dependencies[i]) { cacheHit = false; break; }`.  Only indices of the
new array are visited; a missing stored element (JS `undefined`) compares
unequal to every value. -/
def depsChanged : List V → List V → Bool
  | [], _ => false
  | _ :: _, [] => true
  | n :: ns, o :: os => if n = o then depsChanged ns os else true

/-- Number of renders of the instance with the given id recorded in a
trace. -/
def renderCount (tr : List (Event V)) (id : Nat) : Nat :=
  tr.countP fun e => decide (e = Event.renderStart id)

namespace Keyed

/-- Component body DSL for the keyed variant.  Hook constructors carry the
arguments of the corresponding source call and the continuation for the
rest of the body. -/
inductive Prog (V : Type) where
  | ret : Prog V
  | throwErr : Prog V
  | emit (v : V) (k : Prog V) : Prog V
  | useState (key : String) (initialValue : InitialValue V) (k : V → Prog V) : Prog V
  | useMemo (key : String) (fnId : Nat) (fn : Unit → V) (dependencies : List V)
      (k : V → Prog V) : Prog V
  | useEffect (key : String) (fnId : Nat) (cleanupId : Option Nat)
      (dependencies : List V) (k : Prog V) : Prog V

/-- Payload of a keyed slot, tagged by kind.  A state slot's `setterId` is
the identity of the `setValue` closure created with it; an effect slot's
`cleanupFn` is the identity of the cleanup returned by the last effect run
(`none` = no cleanup). -/
inductive SlotData (V : Type) where
  | state (value : V) (setterId : Nat)
  | memo (value : V) (dependencies : List V)
  | effect (cleanupFn : Option Nat) (dependencies : List V)
  deriving DecidableEq, Repr

/-- A keyed slot: the `active` liveness flag plus the kind-tagged payload. -/
structure Slot (V : Type) where
  active : Bool
  data : SlotData V
  deriving DecidableEq, Repr

/-- The source's `slot.type`. -/
def Slot.type (s : Slot V) : HookKind :=
  match s.data with
  | .state _ _ => .state
  | .memo _ _ => .memo
  | .effect _ _ => .effect

/-- A mounted instance of the keyed variant, the source object
`{ Component, hookState: new Map() }`.  The `Map` is an association list in
insertion order (JS `Map` iteration order).  `initialized` models reading
the `initialized` property of this object: the keyed `mount` never creates
or assigns such a property, so the read yields JS `undefined` (`none`).
`nextSetterId` instruments closure allocation: each `setValue` closure
created by `useState` receives a fresh identity. -/
structure Instance (V : Type) where
  id : Nat
  Component : Prog V
  hookState : List (String × Slot V)
  initialized : Option Bool
  nextSetterId : Nat

/-- `Map.get`. -/
def mapGet (m : List (String × Slot V)) (key : String) : Option (Slot V) :=
  match m with
  | [] => none
  | (k, s) :: rest => if k = key then some s else mapGet rest key

/-- In-place mutation of the slot object stored under `key`: replace the
first binding of `key` (the one `Map.get` returns). -/
def mapReplace (m : List (String × Slot V)) (key : String) (s : Slot V) :
    List (String × Slot V) :=
  match m with
  | [] => []
  | (k, s₀) :: rest =>
    if k = key then (k, s) :: rest else (k, s₀) :: mapReplace rest key s

/-- `useState(key, initialValue)`, keyed variant.  On success returns the
slot's current value, the identity of its `setValue` closure, and the
updated active instance. -/
def useState (key : String) (initialValue : InitialValue V) :
    Option (Instance V) → Except HookError (V × Nat × Instance V)
  | none => .error .invalidContext
  | some inst =>
    match mapGet inst.hookState key with
    | none =>
      let v := initialValue.eval
      let sid := inst.nextSetterId
      .ok (v, sid,
        { inst with
          hookState := inst.hookState ++ [(key, ⟨true, .state v sid⟩)]
          nextSetterId := sid + 1 })
    | some slot =>
      match slot.data with
      | .state v sid =>
        .ok (v, sid,
          { inst with hookState := mapReplace inst.hookState key ⟨true, slot.data⟩ })
      | _ => .error .kindMismatch

/-- `useMemo(key, fn, dependencies)`, keyed variant.  On success returns
the (cached or recomputed) value, the updated instance, and the trace
extended with a `compute` event when `fn` ran. -/
def useMemo (key : String) (fnId : Nat) (fn : Unit → V) (dependencies : List V) :
    Option (Instance V) → List (Event V) →
      Except HookError (V × Instance V × List (Event V))
  | none, _ => .error .invalidContext
  | some inst, tr =>
    match mapGet inst.hookState key with
    | none =>
      let v := fn ()
      .ok (v,
        { inst with hookState := inst.hookState ++ [(key, ⟨true, .memo v dependencies⟩)] },
        tr ++ [.compute fnId])
    | some slot =>
      match slot.data with
      | .memo value oldDeps =>
        if depsChanged dependencies oldDeps then
          let v := fn ()
          .ok (v,
            { inst with hookState := mapReplace inst.hookState key ⟨true, .memo v dependencies⟩ },
            tr ++ [.compute fnId])
        else
          .ok (value,
            { inst with hookState := mapReplace inst.hookState key ⟨true, .memo value oldDeps⟩ },
            tr)
      | _ => .error .kindMismatch

/-- `useEffect(key, fn, dependencies)`, keyed variant.  Running the effect
callback appends `effectRun fnId`; invoking a stored cleanup appends
`cleanupRun` first, mirroring `if (slot.cleanupFn) slot.cleanupFn();`
before `slot.cleanupFn = fn()`. -/
def useEffect (key : String) (fnId : Nat) (cleanupId : Option Nat)
    (dependencies : List V) :
    Option (Instance V) → List (Event V) →
      Except HookError (Instance V × List (Event V))
  | none, _ => .error .invalidContext
  | some inst, tr =>
    match mapGet inst.hookState key with
    | none =>
      .ok ({ inst with
              hookState := inst.hookState ++ [(key, ⟨true, .effect cleanupId dependencies⟩)] },
           tr ++ [.effectRun fnId])
    | some slot =>
      match slot.data with
      | .effect cleanupFn oldDeps =>
        if depsChanged dependencies oldDeps then
          let tr₁ := match cleanupFn with
            | some c => tr ++ [.cleanupRun c]
            | none => tr
          .ok ({ inst with
                  hookState := mapReplace inst.hookState key ⟨true, .effect cleanupId dependencies⟩ },
               tr₁ ++ [.effectRun fnId])
        else
          .ok ({ inst with
                  hookState := mapReplace inst.hookState key ⟨true, .effect cleanupFn oldDeps⟩ },
               tr)
      | _ => .error .kindMismatch

/-- Result of running a component body: the instance as mutated so far, the
trace as extended so far, and `some` error when an exception unwound out of
the body. -/
structure RunResult (V : Type) where
  inst : Instance V
  tr : List (Event V)
  err : Option RunError

/-- `activeInstance.Component()`: run the body against the active instance.
During the body the hooks are invoked with `some inst` — while a render is
in progress the global pointer holds the rendering instance. -/
def runComponent : Prog V → Instance V → List (Event V) → RunResult V
  | .ret, inst, tr => ⟨inst, tr, none⟩
  | .throwErr, inst, tr => ⟨inst, tr, some .thrown⟩
  | .emit v p, inst, tr => runComponent p inst (tr ++ [.emitted v])
  | .useState key init k, inst, tr =>
    match useState key init (some inst) with
    | .error e => ⟨inst, tr, some (.hook e)⟩
    | .ok (v, _, inst') => runComponent (k v) inst' tr
  | .useMemo key fnId fn deps k, inst, tr =>
    match useMemo key fnId fn deps (some inst) tr with
    | .error e => ⟨inst, tr, some (.hook e)⟩
    | .ok (v, inst', tr') => runComponent (k v) inst' tr'
  | .useEffect key fnId cid deps p, inst, tr =>
    match useEffect key fnId cid deps (some inst) tr with
    | .error e => ⟨inst, tr, some (.hook e)⟩
    | .ok (inst', tr') => runComponent p inst' tr'

/-- `for (const [key, slot] of hookState) slot.active = false;` before the
body runs. -/
def setInactive (inst : Instance V) : Instance V :=
  { inst with hookState := inst.hookState.map fun kv => (kv.1, ⟨false, kv.2.data⟩) }

/-- Whether the post-render sweep keeps a slot: only `useEffect` slots that
stayed inactive are removed. -/
def keptSlot (s : Slot V) : Bool :=
  match s.data with
  | .effect _ _ => s.active
  | _ => true

/-- Cleanup calls made by the post-render sweep (`slot.cleanupFn?.()` on
every inactive `useEffect` slot), in `Map` iteration order. -/
def sweepEvents : List (String × Slot V) → List (Event V)
  | [] => []
  | (_, s) :: rest =>
    match s.active, s.data with
    | false, .effect (some c) _ => .cleanupRun c :: sweepEvents rest
    | _, _ => sweepEvents rest

/-- The sweep's deletions: drop every inactive `useEffect` slot. -/
def sweepRemove (m : List (String × Slot V)) : List (String × Slot V) :=
  m.filter fun kv => keptSlot kv.2

/-- Result of `render`: the instance, the value of the global
`activeInstance` pointer after the call returns or the exception escapes,
the trace, and the escaping error if any. -/
structure RenderResult (V : Type) where
  inst : Instance V
  activeInstance : Option Nat
  tr : List (Event V)
  err : Option RunError

/-- `render(instance)`, keyed variant.  Saves the previous pointer, sets the
pointer to this instance, deactivates every slot, runs the body, then — on
normal return only — sweeps inactive effect slots and restores the pointer.
The source has no try/finally, so when the body throws the pointer is left
pointing at this instance. -/
def render (inst : Instance V) (prevInstance : Option Nat) (tr : List (Event V)) :
    RenderResult V :=
  let r := runComponent inst.Component (setInactive inst) (tr ++ [.renderStart inst.id])
  match r.err with
  | some e => ⟨r.inst, some inst.id, r.tr, some e⟩
  | none =>
    ⟨{ r.inst with hookState := sweepRemove r.inst.hookState },
     prevInstance, r.tr ++ sweepEvents r.inst.hookState, none⟩

/-- `mount(Component)`, keyed variant: a fresh instance with an empty slot
map — and no `initialized` property — rendered once.  The returned unmount
closure is modelled by `unmount` applied to the resulting instance. -/
def mount (Component : Prog V) (id : Nat) (prevInstance : Option Nat)
    (tr : List (Event V)) : RenderResult V :=
  render { id := id, Component := Component, hookState := [],
           initialized := none, nextSetterId := 0 } prevInstance tr

/-- The unmount callback: `hookState.forEach((slot) => { if (slot.type ===
"useEffect" && slot.cleanupFn) slot.cleanupFn(); })`. -/
def unmount (inst : Instance V) (tr : List (Event V)) : List (Event V) :=
  inst.hookState.foldl
    (fun acc kv =>
      match kv.2.data with
      | .effect (some c) _ => acc ++ [.cleanupRun c]
      | _ => acc)
    tr

/-- The `setValue` closure created for the state slot stored under `key`.
In the source it captures the slot object and the instance; a keyed state
slot is never deleted or replaced, so locating the slot by its key is
equivalent.  The fall-through branches (no state slot under this key)
cannot arise for a closure actually handed out by `useState` and leave
everything unchanged. -/
def setValue (inst : Instance V) (key : String) (setter : SetterArg V)
    (prevInstance : Option Nat) (tr : List (Event V)) : RenderResult V :=
  match mapGet inst.hookState key with
  | some slot =>
    match slot.data with
    | .state value sid =>
      let newValue := setter.eval value
      if value = newValue then ⟨inst, prevInstance, tr, none⟩
      else
        let inst' :=
          { inst with hookState := mapReplace inst.hookState key ⟨slot.active, .state newValue sid⟩ }
        if slot.active then render inst' prevInstance tr
        else ⟨inst', prevInstance, tr, none⟩
    | _ => ⟨inst, prevInstance, tr, none⟩
  | none => ⟨inst, prevInstance, tr, none⟩

/-- The value currently stored in the state slot under `key`, if any. -/
def stateOf (inst : Instance V) (key : String) : Option V :=
  match mapGet inst.hookState key with
  | some ⟨_, .state v _⟩ => some v
  | _ => none

end Keyed

namespace Pos

/-- Component body DSL for the positional variant: as in `Keyed.Prog`, but
hook calls carry no key — a call is matched to a slot by execution order. -/
inductive Prog (V : Type) where
  | ret : Prog V
  | throwErr : Prog V
  | emit (v : V) (k : Prog V) : Prog V
  | useState (initialValue : InitialValue V) (k : V → Prog V) : Prog V
  | useMemo (fnId : Nat) (fn : Unit → V) (dependencies : List V) (k : V → Prog V) : Prog V
  | useEffect (fnId : Nat) (cleanupId : Option Nat) (dependencies : List V)
      (k : Prog V) : Prog V

/-- A positional slot (no liveness flag), tagged by kind, with the same
payloads as in the keyed variant. -/
inductive Slot (V : Type) where
  | state (value : V) (setterId : Nat)
  | memo (value : V) (dependencies : List V)
  | effect (cleanupFn : Option Nat) (dependencies : List V)
  deriving DecidableEq, Repr

/-- The source's `slot.type`. -/
def Slot.type (s : Slot V) : HookKind :=
  match s with
  | .state _ _ => .state
  | .memo _ _ => .memo
  | .effect _ _ => .effect

/-- A mounted instance of the positional variant, the source object
`{ Component, initialized: false, hookStateIndex: 0, hookState: [] }`.
`nextSetterId` instruments `setValue` closure allocation as in the keyed
variant. -/
structure Instance (V : Type) where
  id : Nat
  Component : Prog V
  initialized : Bool
  hookStateIndex : Nat
  hookState : List (Slot V)
  nextSetterId : Nat

/-- `useState(initialValue)`, positional variant.  Returns the active
instance as mutated by the call — the cursor advances even on the error
paths, since the source increments `hookStateIndex` before the invariant
check — together with the call's outcome (value and setter identity). -/
def useState (initialValue : InitialValue V) :
    Option (Instance V) → Option (Instance V) × Except HookError (V × Nat)
  | none => (none, .error .invalidContext)
  | some inst =>
    if inst.initialized then
      let idx := inst.hookStateIndex
      let inst₁ := { inst with hookStateIndex := idx + 1 }
      match inst.hookState[idx]? with
      | some (.state v sid) => (some inst₁, .ok (v, sid))
      | some _ => (some inst₁, .error .kindMismatch)
      | none => (some inst₁, .error .kindMismatch)
    else
      let v := initialValue.eval
      let sid := inst.nextSetterId
      (some { inst with
                hookState := inst.hookState ++ [.state v sid]
                nextSetterId := sid + 1 },
       .ok (v, sid))

/-- `useMemo(fn, dependencies)`, positional variant. -/
def useMemo (fnId : Nat) (fn : Unit → V) (dependencies : List V) :
    Option (Instance V) → List (Event V) →
      Option (Instance V) × List (Event V) × Except HookError V
  | none, tr => (none, tr, .error .invalidContext)
  | some inst, tr =>
    if inst.initialized then
      let idx := inst.hookStateIndex
      let inst₁ := { inst with hookStateIndex := idx + 1 }
      match inst.hookState[idx]? with
      | some (.memo value oldDeps) =>
        if depsChanged dependencies oldDeps then
          let v := fn ()
          (some { inst₁ with hookState := inst₁.hookState.set idx (.memo v dependencies) },
           tr ++ [.compute fnId], .ok v)
        else
          (some inst₁, tr, .ok value)
      | some _ => (some inst₁, tr, .error .kindMismatch)
      | none => (some inst₁, tr, .error .kindMismatch)
    else
      let v := fn ()
      (some { inst with hookState := inst.hookState ++ [.memo v dependencies] },
       tr ++ [.compute fnId], .ok v)

/-- `useEffect(fn, dependencies)`, positional variant. -/
def useEffect (fnId : Nat) (cleanupId : Option Nat) (dependencies : List V) :
    Option (Instance V) → List (Event V) →
      Option (Instance V) × List (Event V) × Except HookError Unit
  | none, tr => (none, tr, .error .invalidContext)
  | some inst, tr =>
    if inst.initialized then
      let idx := inst.hookStateIndex
      let inst₁ := { inst with hookStateIndex := idx + 1 }
      match inst.hookState[idx]? with
      | some (.effect cleanupFn oldDeps) =>
        if depsChanged dependencies oldDeps then
          let tr₁ := match cleanupFn with
            | some c => tr ++ [.cleanupRun c]
            | none => tr
          (some { inst₁ with hookState := inst₁.hookState.set idx (.effect cleanupId dependencies) },
           tr₁ ++ [.effectRun fnId], .ok ())
        else
          (some inst₁, tr, .ok ())
      | some _ => (some inst₁, tr, .error .kindMismatch)
      | none => (some inst₁, tr, .error .kindMismatch)
    else
      (some { inst with hookState := inst.hookState ++ [.effect cleanupId dependencies] },
       tr ++ [.effectRun fnId], .ok ())

/-- Result of running a component body, positional variant. -/
structure RunResult (V : Type) where
  inst : Instance V
  tr : List (Event V)
  err : Option RunError

/-- `activeInstance.Component()`, positional variant.  The `none` branches
cannot arise — the body always runs with an active instance — and return
the input unchanged. -/
def runComponent : Prog V → Instance V → List (Event V) → RunResult V
  | .ret, inst, tr => ⟨inst, tr, none⟩
  | .throwErr, inst, tr => ⟨inst, tr, some .thrown⟩
  | .emit v p, inst, tr => runComponent p inst (tr ++ [.emitted v])
  | .useState init k, inst, tr =>
    match useState init (some inst) with
    | (some inst', .ok (v, _)) => runComponent (k v) inst' tr
    | (some inst', .error e) => ⟨inst', tr, some (.hook e)⟩
    | (none, _) => ⟨inst, tr, some (.hook .invalidContext)⟩
  | .useMemo fnId fn deps k, inst, tr =>
    match useMemo fnId fn deps (some inst) tr with
    | (some inst', tr', .ok v) => runComponent (k v) inst' tr'
    | (some inst', tr', .error e) => ⟨inst', tr', some (.hook e)⟩
    | (none, tr', _) => ⟨inst, tr', some (.hook .invalidContext)⟩
  | .useEffect fnId cid deps p, inst, tr =>
    match useEffect fnId cid deps (some inst) tr with
    | (some inst', tr', .ok _) => runComponent p inst' tr'
    | (some inst', tr', .error e) => ⟨inst', tr', some (.hook e)⟩
    | (none, tr', _) => ⟨inst, tr', some (.hook .invalidContext)⟩

/-- Result of `render`, positional variant (same shape as the keyed one). -/
structure RenderResult (V : Type) where
  inst : Instance V
  activeInstance : Option Nat
  tr : List (Event V)
  err : Option RunError

/-- `render(instance)`, positional variant: save the previous pointer, set
the pointer to this instance, reset the cursor, run the body, restore the
pointer on normal return.  As in the keyed variant there is no try/finally:
a throwing body leaves the pointer at this instance. -/
def render (inst : Instance V) (prevInstance : Option Nat) (tr : List (Event V)) :
    RenderResult V :=
  let r := runComponent inst.Component { inst with hookStateIndex := 0 }
    (tr ++ [.renderStart inst.id])
  match r.err with
  | some e => ⟨r.inst, some inst.id, r.tr, some e⟩
  | none => ⟨r.inst, prevInstance, r.tr, none⟩

/-- `mount(Component)`, positional variant: fresh instance with empty slot
array and `initialized` false, rendered once, then `initialized` set to
true — the assignment is skipped when the render throws, since the
exception escapes `mount` first. -/
def mount (Component : Prog V) (id : Nat) (prevInstance : Option Nat)
    (tr : List (Event V)) : RenderResult V :=
  let r := render { id := id, Component := Component, initialized := false,
                    hookStateIndex := 0, hookState := [], nextSetterId := 0 }
    prevInstance tr
  match r.err with
  | some _ => r
  | none => { r with inst := { r.inst with initialized := true } }

/-- The unmount callback, positional variant (identical sweep over the slot
array in index order). -/
def unmount (inst : Instance V) (tr : List (Event V)) : List (Event V) :=
  inst.hookState.foldl
    (fun acc s =>
      match s with
      | .effect (some c) _ => acc ++ [.cleanupRun c]
      | _ => acc)
    tr

/-- The `setValue` closure created for the state slot at index `i` of the
slot array.  Positional slots are never removed, so the captured slot
object is the one at its creation index.  The fall-through branch cannot
arise for a closure actually handed out by `useState`. -/
def setValue (inst : Instance V) (i : Nat) (setter : SetterArg V)
    (prevInstance : Option Nat) (tr : List (Event V)) : RenderResult V :=
  match inst.hookState[i]? with
  | some (.state value sid) =>
    let newValue := setter.eval value
    if value = newValue then ⟨inst, prevInstance, tr, none⟩
    else
      render { inst with hookState := inst.hookState.set i (.state newValue sid) }
        prevInstance tr
  | _ => ⟨inst, prevInstance, tr, none⟩

/-- The value currently stored in the state slot at index `i`, if any. -/
def stateOf (inst : Instance V) (i : Nat) : Option V :=
  match inst.hookState[i]? with
  | some (.state v _) => some v
  | _ => none

end Pos

/-! ### Helper lemmas: the dependency comparison -/

/-- The dependency loop reports a change exactly when some index below the
new array's length holds a strictly different value than the stored array
(a missing stored element, JS `undefined`, differs from every value). -/
theorem depsChanged_iff (ns os : List V) :
    depsChanged ns os = true ↔ ∃ i, i < ns.length ∧ ns[i]? ≠ os[i]? := by
  induction ns generalizing os with
  | nil => simp [depsChanged]
  | cons n ns ih =>
    cases os with
    | nil =>
      simp only [depsChanged, true_iff]
      exact ⟨0, by simp, by simp⟩
    | cons o os =>
      simp only [depsChanged]
      by_cases h : n = o
      · subst h
        rw [if_pos rfl, ih]
        constructor
        · rintro ⟨i, hi, hne⟩
          exact ⟨i + 1, by simpa using hi, by simpa using hne⟩
        · rintro ⟨i, hi, hne⟩
          cases i with
          | zero => simp at hne
          | succ j => exact ⟨j, by simpa using hi, by simpa using hne⟩
      · rw [if_neg h]
        constructor
        · intro _
          exact ⟨0, by simp, by simpa using h⟩
        · intro _; rfl

/-! ### Helper lemmas: render counting -/

theorem renderCount_append (tr₁ tr₂ : List (Event V)) (id : Nat) :
    renderCount (tr₁ ++ tr₂) id = renderCount tr₁ id + renderCount tr₂ id :=
  List.countP_append _ _ _

theorem renderCount_emitted (v : V) (id : Nat) :
    renderCount [Event.emitted v] id = 0 := by
  simp [renderCount]

theorem renderCount_compute (f id : Nat) :
    renderCount ([Event.compute f] : List (Event V)) id = 0 := by
  simp [renderCount]

theorem renderCount_effectRun (f id : Nat) :
    renderCount ([Event.effectRun f] : List (Event V)) id = 0 := by
  simp [renderCount]

theorem renderCount_cleanupRun (c id : Nat) :
    renderCount ([Event.cleanupRun c] : List (Event V)) id = 0 := by
  simp [renderCount]

theorem renderCount_renderStart (i id : Nat) :
    renderCount ([Event.renderStart i] : List (Event V)) id
      = if i = id then 1 else 0 := by
  by_cases h : i = id <;> simp [renderCount, h]

/-! ### Helper lemmas: the keyed slot map -/

theorem kMapGet_append_some {m : List (String × Keyed.Slot V)} {key : String}
    {s : Keyed.Slot V} (l : List (String × Keyed.Slot V))
    (h : Keyed.mapGet m key = some s) :
    Keyed.mapGet (m ++ l) key = some s := by
  induction m with
  | nil => simp [Keyed.mapGet] at h
  | cons kv rest ih =>
    by_cases hk : kv.1 = key
    · simp_all [Keyed.mapGet]
    · simp_all [Keyed.mapGet]

theorem kMapGet_replace_self {m : List (String × Keyed.Slot V)} {key : String}
    {s₀ : Keyed.Slot V} (s : Keyed.Slot V)
    (h : Keyed.mapGet m key = some s₀) :
    Keyed.mapGet (Keyed.mapReplace m key s) key = some s := by
  induction m with
  | nil => simp [Keyed.mapGet] at h
  | cons kv rest ih =>
    by_cases hk : kv.1 = key
    · simp_all [Keyed.mapGet, Keyed.mapReplace]
    · simp_all [Keyed.mapGet, Keyed.mapReplace]

theorem kMapGet_replace_other {m : List (String × Keyed.Slot V)} {key k' : String}
    (hne : k' ≠ key) (s : Keyed.Slot V) :
    Keyed.mapGet (Keyed.mapReplace m key s) k' = Keyed.mapGet m k' := by
  induction m with
  | nil => simp [Keyed.mapReplace]
  | cons kv rest ih =>
    by_cases hk : kv.1 = key
    · have : kv.1 ≠ k' := by rw [hk]; exact fun h => hne h.symm
      simp_all [Keyed.mapGet, Keyed.mapReplace]
    · by_cases hk' : kv.1 = k' <;> simp_all [Keyed.mapGet, Keyed.mapReplace]

theorem kMapGet_filter_kept {m : List (String × Keyed.Slot V)} {key : String}
    {s : Keyed.Slot V} (h : Keyed.mapGet m key = some s)
    (hkept : Keyed.keptSlot s = true) :
    Keyed.mapGet (Keyed.sweepRemove m) key = some s := by
  induction m with
  | nil => simp [Keyed.mapGet] at h
  | cons kv rest ih =>
    obtain ⟨k, s₀⟩ := kv
    by_cases hk : k = key
    · subst hk
      simp only [Keyed.mapGet, if_pos rfl] at h
      injection h with h
      subst h
      simp [Keyed.sweepRemove, List.filter_cons, hkept, Keyed.mapGet]
    · simp only [Keyed.mapGet, if_neg hk] at h
      by_cases hkeep : Keyed.keptSlot s₀ <;>
        simp_all [Keyed.sweepRemove, List.filter_cons, Keyed.mapGet]

theorem kMapGet_none_of_not_mem {m : List (String × Keyed.Slot V)} {key : String}
    (h : key ∉ m.map Prod.fst) :
    Keyed.mapGet m key = none := by
  induction m with
  | nil => simp [Keyed.mapGet]
  | cons kv rest ih =>
    simp only [List.map_cons, List.mem_cons] at h
    push_neg at h
    have : kv.1 ≠ key := fun hk => h.1 hk.symm
    simp [Keyed.mapGet, this, ih h.2]

theorem kMapGet_filter_dropped {m : List (String × Keyed.Slot V)} {key : String}
    {s : Keyed.Slot V} (hnd : (m.map Prod.fst).Nodup)
    (h : Keyed.mapGet m key = some s) (hdrop : Keyed.keptSlot s = false) :
    Keyed.mapGet (Keyed.sweepRemove m) key = none := by
  induction m with
  | nil => simp [Keyed.sweepRemove, Keyed.mapGet]
  | cons kv rest ih =>
    obtain ⟨k, s₀⟩ := kv
    simp only [List.map_cons, List.nodup_cons] at hnd
    by_cases hk : k = key
    · subst hk
      simp only [Keyed.mapGet, if_pos rfl] at h
      injection h with h
      subst h
      have hnot : k ∉ (Keyed.sweepRemove rest).map Prod.fst := fun hmem =>
        hnd.1 ((List.Sublist.map Prod.fst (List.filter_sublist rest)).mem hmem)
      have hstep : Keyed.sweepRemove ((k, s₀) :: rest) = Keyed.sweepRemove rest := by
        simp [Keyed.sweepRemove, List.filter_cons, hdrop]
      rw [hstep]
      exact kMapGet_none_of_not_mem hnot
    · simp only [Keyed.mapGet, if_neg hk] at h
      by_cases hkeep : Keyed.keptSlot s₀ <;>
        simp_all [Keyed.sweepRemove, List.filter_cons, Keyed.mapGet]

/-! ### Helper lemmas: keyed state slots survive hooks, bodies and renders
with their value and setter identity intact (only `active` may change). -/

theorem kUseState_stable {inst inst' : Keyed.Instance V} {key key₂ : String}
    {a : Bool} {w v : V} {sid sid₂ : Nat} {init : InitialValue V}
    (h : Keyed.mapGet inst.hookState key = some ⟨a, .state w sid⟩)
    (hc : Keyed.useState key₂ init (some inst) = .ok (v, sid₂, inst')) :
    ∃ a', Keyed.mapGet inst'.hookState key = some ⟨a', .state w sid⟩ := by
  rcases hm : Keyed.mapGet inst.hookState key₂ with _ | ⟨a₂, d₂⟩
  · simp only [Keyed.useState, hm, Except.ok.injEq, Prod.mk.injEq] at hc
    obtain ⟨-, -, hinst⟩ := hc
    subst hinst
    exact ⟨a, kMapGet_append_some _ h⟩
  · rcases d₂ with ⟨v₂, sid₂'⟩ | ⟨v₂, dep₂⟩ | ⟨c₂, dep₂⟩
    · simp only [Keyed.useState, hm, Except.ok.injEq, Prod.mk.injEq] at hc
      obtain ⟨-, -, hinst⟩ := hc
      subst hinst
      by_cases hkey : key₂ = key
      · subst hkey
        rw [h] at hm
        injection hm with hm
        obtain ⟨ha, hv, hsid⟩ : a = a₂ ∧ w = v₂ ∧ sid = sid₂' := by
          simpa [Keyed.Slot.mk.injEq, Keyed.SlotData.state.injEq, eq_comm] using hm
        subst hv; subst hsid
        exact ⟨true, kMapGet_replace_self _ h⟩
      · exact ⟨a, (kMapGet_replace_other (fun hh => hkey hh.symm) _).trans h⟩
    · simp [Keyed.useState, hm] at hc
    · simp [Keyed.useState, hm] at hc

theorem kUseMemo_stable {inst inst' : Keyed.Instance V} {key key₂ : String}
    {a : Bool} {w v : V} {sid fnId : Nat} {fn : Unit → V} {deps : List V}
    {tr tr' : List (Event V)}
    (h : Keyed.mapGet inst.hookState key = some ⟨a, .state w sid⟩)
    (hc : Keyed.useMemo key₂ fnId fn deps (some inst) tr = .ok (v, inst', tr')) :
    ∃ a', Keyed.mapGet inst'.hookState key = some ⟨a', .state w sid⟩ := by
  have hkey : key₂ ≠ key := by
    intro hk
    subst hk
    rcases hm : Keyed.mapGet inst.hookState key₂ with _ | ⟨a₂, d₂⟩
    · rw [h] at hm; cases hm
    · rw [h] at hm
      injection hm with hm
      rcases d₂ with _ | _ | _ <;> simp_all [Keyed.useMemo]
  rcases hm : Keyed.mapGet inst.hookState key₂ with _ | ⟨a₂, d₂⟩
  · simp only [Keyed.useMemo, hm, Except.ok.injEq, Prod.mk.injEq] at hc
    obtain ⟨-, hinst, -⟩ := hc
    subst hinst
    exact ⟨a, kMapGet_append_some _ h⟩
  · rcases d₂ with ⟨v₂, sid₂⟩ | ⟨v₂, dep₂⟩ | ⟨c₂, dep₂⟩
    · simp [Keyed.useMemo, hm] at hc
    · by_cases hdep : depsChanged deps dep₂ <;>
        · simp only [Keyed.useMemo, hm, hdep, if_pos, if_neg, Bool.false_eq_true,
            if_false, if_true, Except.ok.injEq, Prod.mk.injEq] at hc
          obtain ⟨-, hinst, -⟩ := hc
          subst hinst
          exact ⟨a, (kMapGet_replace_other (fun hh => hkey hh.symm) _).trans h⟩
    · simp [Keyed.useMemo, hm] at hc

theorem kUseEffect_stable {inst inst' : Keyed.Instance V} {key key₂ : String}
    {a : Bool} {w : V} {sid fnId : Nat} {cid : Option Nat} {deps : List V}
    {tr tr' : List (Event V)}
    (h : Keyed.mapGet inst.hookState key = some ⟨a, .state w sid⟩)
    (hc : Keyed.useEffect key₂ fnId cid deps (some inst) tr = .ok (inst', tr')) :
    ∃ a', Keyed.mapGet inst'.hookState key = some ⟨a', .state w sid⟩ := by
  have hkey : key₂ ≠ key := by
    intro hk
    subst hk
    rcases hm : Keyed.mapGet inst.hookState key₂ with _ | ⟨a₂, d₂⟩
    · rw [h] at hm; cases hm
    · rw [h] at hm
      injection hm with hm
      rcases d₂ with _ | _ | _ <;> simp_all [Keyed.useEffect]
  rcases hm : Keyed.mapGet inst.hookState key₂ with _ | ⟨a₂, d₂⟩
  · simp only [Keyed.useEffect, hm, Except.ok.injEq, Prod.mk.injEq] at hc
    obtain ⟨hinst, -⟩ := hc
    subst hinst
    exact ⟨a, kMapGet_append_some _ h⟩
  · rcases d₂ with ⟨v₂, sid₂⟩ | ⟨v₂, dep₂⟩ | ⟨c₂, dep₂⟩
    · simp [Keyed.useEffect, hm] at hc
    · simp [Keyed.useEffect, hm] at hc
    · by_cases hdep : depsChanged deps dep₂ <;>
        · simp only [Keyed.useEffect, hm, hdep, Bool.false_eq_true, if_false,
            if_true, Except.ok.injEq, Prod.mk.injEq] at hc
          obtain ⟨hinst, -⟩ := hc
          subst hinst
          exact ⟨a, (kMapGet_replace_other (fun hh => hkey hh.symm) _).trans h⟩

theorem kRun_state_stable {key : String} {w : V} {sid : Nat} :
    ∀ (p : Keyed.Prog V) (inst : Keyed.Instance V) (tr : List (Event V)) (a : Bool),
      Keyed.mapGet inst.hookState key = some ⟨a, .state w sid⟩ →
      ∃ a', Keyed.mapGet (Keyed.runComponent p inst tr).inst.hookState key
          = some ⟨a', .state w sid⟩ := by
  intro p
  induction p with
  | ret => exact fun inst tr a h => ⟨a, h⟩
  | throwErr => exact fun inst tr a h => ⟨a, h⟩
  | emit v p ih => exact fun inst tr a h => ih inst _ a h
  | useState key₂ init k ih =>
    intro inst tr a h
    rcases hc : Keyed.useState key₂ init (some inst) with e | ⟨v, sid₂, inst'⟩
    · simp only [Keyed.runComponent, hc]
      exact ⟨a, h⟩
    · simp only [Keyed.runComponent, hc]
      obtain ⟨a', h'⟩ := kUseState_stable h hc
      exact ih v inst' tr a' h'
  | useMemo key₂ fnId fn deps k ih =>
    intro inst tr a h
    rcases hc : Keyed.useMemo key₂ fnId fn deps (some inst) tr with e | ⟨v, inst', tr'⟩
    · simp only [Keyed.runComponent, hc]
      exact ⟨a, h⟩
    · simp only [Keyed.runComponent, hc]
      obtain ⟨a', h'⟩ := kUseMemo_stable h hc
      exact ih v inst' tr' a' h'
  | useEffect key₂ fnId cid deps p ih =>
    intro inst tr a h
    rcases hc : Keyed.useEffect key₂ fnId cid deps (some inst) tr with e | ⟨inst', tr'⟩
    · simp only [Keyed.runComponent, hc]
      exact ⟨a, h⟩
    · simp only [Keyed.runComponent, hc]
      obtain ⟨a', h'⟩ := kUseEffect_stable h hc
      exact ih inst' tr' a' h'

theorem kSetInactive_mapGet_list {m : List (String × Keyed.Slot V)} {key : String}
    {a : Bool} {d : Keyed.SlotData V}
    (h : Keyed.mapGet m key = some ⟨a, d⟩) :
    Keyed.mapGet (m.map fun kv => (kv.1, (⟨false, kv.2.data⟩ : Keyed.Slot V))) key
      = some ⟨false, d⟩ := by
  induction m with
  | nil => simp [Keyed.mapGet] at h
  | cons kv rest ih =>
    obtain ⟨k, s₀⟩ := kv
    by_cases hk : k = key
    · subst hk
      simp only [Keyed.mapGet, if_pos rfl] at h
      injection h with h
      subst h
      simp [Keyed.mapGet]
    · simp only [Keyed.mapGet, if_neg hk] at h
      simpa [Keyed.mapGet, hk] using ih h

theorem kSetInactive_mapGet {inst : Keyed.Instance V} {key : String}
    {a : Bool} {d : Keyed.SlotData V}
    (h : Keyed.mapGet inst.hookState key = some ⟨a, d⟩) :
    Keyed.mapGet (Keyed.setInactive inst).hookState key = some ⟨false, d⟩ :=
  kSetInactive_mapGet_list h

theorem kRender_state_stable {inst : Keyed.Instance V} {key : String}
    {a : Bool} {w : V} {sid : Nat} (prev : Option Nat) (tr : List (Event V))
    (h : Keyed.mapGet inst.hookState key = some ⟨a, .state w sid⟩) :
    ∃ a', Keyed.mapGet (Keyed.render inst prev tr).inst.hookState key
        = some ⟨a', .state w sid⟩ := by
  obtain ⟨a', h'⟩ := kRun_state_stable inst.Component (Keyed.setInactive inst)
    (tr ++ [Event.renderStart inst.id]) false (kSetInactive_mapGet h)
  simp only [Keyed.render]
  rcases herr : (Keyed.runComponent inst.Component (Keyed.setInactive inst)
      (tr ++ [Event.renderStart inst.id])).err with _ | e
  · simp only [herr]
    exact ⟨a', kMapGet_filter_kept h' rfl⟩
  · simp only [herr]
    exact ⟨a', h'⟩

/-! ### Helper lemmas: counting renders through keyed hooks and bodies -/

theorem renderCount_cons (e : Event V) (tr : List (Event V)) (id : Nat) :
    renderCount (e :: tr) id
      = renderCount tr id + (if e = Event.renderStart id then 1 else 0) := by
  simp [renderCount, List.countP_cons]

theorem kUseMemo_renderCount {inst inst' : Keyed.Instance V} {key : String}
    {fnId : Nat} {fn : Unit → V} {deps : List V} {v : V}
    {tr tr' : List (Event V)} (id : Nat)
    (hc : Keyed.useMemo key fnId fn deps (some inst) tr = .ok (v, inst', tr')) :
    renderCount tr' id = renderCount tr id := by
  rcases hm : Keyed.mapGet inst.hookState key with _ | ⟨a₂, d₂⟩
  · simp only [Keyed.useMemo, hm, Except.ok.injEq, Prod.mk.injEq] at hc
    obtain ⟨-, -, htr⟩ := hc
    subst htr
    simp [renderCount_append, renderCount_compute]
  · rcases d₂ with _ | ⟨v₂, dep₂⟩ | _
    · simp [Keyed.useMemo, hm] at hc
    · by_cases hdep : depsChanged deps dep₂ <;>
        · simp only [Keyed.useMemo, hm, hdep, Bool.false_eq_true, if_false, if_true,
            Except.ok.injEq, Prod.mk.injEq] at hc
          obtain ⟨-, -, htr⟩ := hc
          subst htr
          simp [renderCount_append, renderCount_compute]
    · simp [Keyed.useMemo, hm] at hc

theorem kUseEffect_renderCount {inst inst' : Keyed.Instance V} {key : String}
    {fnId : Nat} {cid : Option Nat} {deps : List V}
    {tr tr' : List (Event V)} (id : Nat)
    (hc : Keyed.useEffect key fnId cid deps (some inst) tr = .ok (inst', tr')) :
    renderCount tr' id = renderCount tr id := by
  rcases hm : Keyed.mapGet inst.hookState key with _ | ⟨a₂, d₂⟩
  · simp only [Keyed.useEffect, hm, Except.ok.injEq, Prod.mk.injEq] at hc
    obtain ⟨-, htr⟩ := hc
    subst htr
    simp [renderCount_append, renderCount_effectRun]
  · rcases d₂ with _ | _ | ⟨c₂, dep₂⟩
    · simp [Keyed.useEffect, hm] at hc
    · simp [Keyed.useEffect, hm] at hc
    · by_cases hdep : depsChanged deps dep₂
      · rcases c₂ with _ | c <;>
          · simp only [Keyed.useEffect, hm, hdep, if_true, Except.ok.injEq,
              Prod.mk.injEq] at hc
            obtain ⟨-, htr⟩ := hc
            subst htr
            simp [renderCount, renderCount_append]
      · simp only [Keyed.useEffect, hm, hdep, Bool.false_eq_true, if_false,
          Except.ok.injEq, Prod.mk.injEq] at hc
        obtain ⟨-, htr⟩ := hc
        subst htr
        rfl

theorem kRun_renderCount (id : Nat) :
    ∀ (p : Keyed.Prog V) (inst : Keyed.Instance V) (tr : List (Event V)),
      renderCount (Keyed.runComponent p inst tr).tr id = renderCount tr id := by
  intro p
  induction p with
  | ret => intro inst tr; rfl
  | throwErr => intro inst tr; rfl
  | emit v p ih =>
    intro inst tr
    simp only [Keyed.runComponent]
    rw [ih, renderCount_append, renderCount_emitted]
    exact Nat.add_zero _
  | useState key init k ih =>
    intro inst tr
    rcases hc : Keyed.useState key init (some inst) with e | ⟨v, sid, inst'⟩ <;>
      simp only [Keyed.runComponent, hc]
    exact ih v inst' tr
  | useMemo key fnId fn deps k ih =>
    intro inst tr
    rcases hc : Keyed.useMemo key fnId fn deps (some inst) tr with e | ⟨v, inst', tr'⟩ <;>
      simp only [Keyed.runComponent, hc]
    rw [ih v inst' tr', kUseMemo_renderCount id hc]
  | useEffect key fnId cid deps p ih =>
    intro inst tr
    rcases hc : Keyed.useEffect key fnId cid deps (some inst) tr with e | ⟨inst', tr'⟩ <;>
      simp only [Keyed.runComponent, hc]
    rw [ih inst' tr', kUseEffect_renderCount id hc]

theorem kSweepEvents_renderCount (m : List (String × Keyed.Slot V)) (id : Nat) :
    renderCount (Keyed.sweepEvents m) id = 0 := by
  induction m with
  | nil => rfl
  | cons kv rest ih =>
    obtain ⟨k, act, d⟩ := kv
    cases act
    · rcases d with _ | _ | ⟨c, dep⟩ <;> try simpa [Keyed.sweepEvents] using ih
      rcases c with _ | c <;>
        simp [Keyed.sweepEvents, renderCount_cons, ih]
    · rcases d with _ | _ | ⟨c, dep⟩ <;> simpa [Keyed.sweepEvents] using ih

theorem kRender_renderCount (inst : Keyed.Instance V) (prev : Option Nat)
    (tr : List (Event V)) :
    renderCount (Keyed.render inst prev tr).tr inst.id
      = renderCount tr inst.id + 1 := by
  have hbase : renderCount (tr ++ [Event.renderStart inst.id]) inst.id
      = renderCount tr inst.id + 1 := by
    rw [renderCount_append, renderCount_renderStart, if_pos rfl]
  simp only [Keyed.render]
  rcases herr : (Keyed.runComponent inst.Component (Keyed.setInactive inst)
      (tr ++ [Event.renderStart inst.id])).err with _ | e
  · simp only [herr]
    rw [renderCount_append, kSweepEvents_renderCount, kRun_renderCount, hbase]
  · simp only [herr]
    rw [kRun_renderCount, hbase]

/-! ### Helper lemmas: positional state slots survive hooks, bodies and
renders with their value and setter identity intact -/

theorem pGet_append_some {l : List (Pos.Slot V)} {i : Nat} {s : Pos.Slot V}
    (l' : List (Pos.Slot V)) (h : l[i]? = some s) : (l ++ l')[i]? = some s := by
  rw [List.getElem?_append, if_pos (List.getElem?_eq_some.mp h).1]
  exact h

theorem pUseState_stable {inst inst' : Pos.Instance V} {i : Nat}
    {w : V} {sid : Nat} {init : InitialValue V}
    {res : Except HookError (V × Nat)}
    (h : inst.hookState[i]? = some (.state w sid))
    (hc : Pos.useState init (some inst) = (some inst', res)) :
    inst'.hookState[i]? = some (.state w sid) := by
  by_cases hinit : inst.initialized
  · rcases hm : inst.hookState[inst.hookStateIndex]? with _ | s <;>
      [skip; rcases s with ⟨v₂, sid₂⟩ | ⟨v₂, dep₂⟩ | ⟨c₂, dep₂⟩] <;>
      · simp only [Pos.useState, hinit, hm, if_true, Prod.mk.injEq,
          Option.some.injEq] at hc
        obtain ⟨hinst, -⟩ := hc
        subst hinst
        exact h
  · simp only [Pos.useState, hinit, Bool.false_eq_true, if_false, Prod.mk.injEq,
      Option.some.injEq] at hc
    obtain ⟨hinst, -⟩ := hc
    subst hinst
    exact pGet_append_some _ h

theorem pUseMemo_stable {inst inst' : Pos.Instance V} {i fnId : Nat}
    {w : V} {sid : Nat} {fn : Unit → V} {deps : List V}
    {tr tr' : List (Event V)} {res : Except HookError V}
    (h : inst.hookState[i]? = some (.state w sid))
    (hc : Pos.useMemo fnId fn deps (some inst) tr = (some inst', tr', res)) :
    inst'.hookState[i]? = some (.state w sid) := by
  by_cases hinit : inst.initialized
  · rcases hm : inst.hookState[inst.hookStateIndex]? with _ | s
    · simp only [Pos.useMemo, hinit, hm, if_true, Prod.mk.injEq,
        Option.some.injEq] at hc
      obtain ⟨hinst, -⟩ := hc
      subst hinst
      exact h
    · rcases s with ⟨v₂, sid₂⟩ | ⟨v₂, dep₂⟩ | ⟨c₂, dep₂⟩
      · simp only [Pos.useMemo, hinit, hm, if_true, Prod.mk.injEq,
          Option.some.injEq] at hc
        obtain ⟨hinst, -⟩ := hc
        subst hinst
        exact h
      · have hne : inst.hookStateIndex ≠ i := by
          intro he
          rw [he, h] at hm
          cases hm
        by_cases hdep : depsChanged deps dep₂ <;>
          · simp only [Pos.useMemo, hinit, hm, hdep, Bool.false_eq_true, if_false,
              if_true, Prod.mk.injEq, Option.some.injEq] at hc
            obtain ⟨hinst, -⟩ := hc
            subst hinst
            first
            | exact (List.getElem?_set_ne hne).trans h
            | exact h
      · simp only [Pos.useMemo, hinit, hm, if_true, Prod.mk.injEq,
          Option.some.injEq] at hc
        obtain ⟨hinst, -⟩ := hc
        subst hinst
        exact h
  · simp only [Pos.useMemo, hinit, Bool.false_eq_true, if_false, Prod.mk.injEq,
      Option.some.injEq] at hc
    obtain ⟨hinst, -⟩ := hc
    subst hinst
    exact pGet_append_some _ h

theorem pUseEffect_stable {inst inst' : Pos.Instance V} {i fnId : Nat}
    {w : V} {sid : Nat} {cid : Option Nat} {deps : List V}
    {tr tr' : List (Event V)} {res : Except HookError Unit}
    (h : inst.hookState[i]? = some (.state w sid))
    (hc : Pos.useEffect fnId cid deps (some inst) tr = (some inst', tr', res)) :
    inst'.hookState[i]? = some (.state w sid) := by
  by_cases hinit : inst.initialized
  · rcases hm : inst.hookState[inst.hookStateIndex]? with _ | s
    · simp only [Pos.useEffect, hinit, hm, if_true, Prod.mk.injEq,
        Option.some.injEq] at hc
      obtain ⟨hinst, -⟩ := hc
      subst hinst
      exact h
    · rcases s with ⟨v₂, sid₂⟩ | ⟨v₂, dep₂⟩ | ⟨c₂, dep₂⟩
      · simp only [Pos.useEffect, hinit, hm, if_true, Prod.mk.injEq,
          Option.some.injEq] at hc
        obtain ⟨hinst, -⟩ := hc
        subst hinst
        exact h
      · simp only [Pos.useEffect, hinit, hm, if_true, Prod.mk.injEq,
          Option.some.injEq] at hc
        obtain ⟨hinst, -⟩ := hc
        subst hinst
        exact h
      · have hne : inst.hookStateIndex ≠ i := by
          intro he
          rw [he, h] at hm
          cases hm
        by_cases hdep : depsChanged deps dep₂ <;>
          · simp only [Pos.useEffect, hinit, hm, hdep, Bool.false_eq_true, if_false,
              if_true, Prod.mk.injEq, Option.some.injEq] at hc
            obtain ⟨hinst, -⟩ := hc
            subst hinst
            first
            | exact (List.getElem?_set_ne hne).trans h
            | exact h
  · simp only [Pos.useEffect, hinit, Bool.false_eq_true, if_false, Prod.mk.injEq,
      Option.some.injEq] at hc
    obtain ⟨hinst, -⟩ := hc
    subst hinst
    exact pGet_append_some _ h

theorem pRun_state_stable {i : Nat} {w : V} {sid : Nat} :
    ∀ (p : Pos.Prog V) (inst : Pos.Instance V) (tr : List (Event V)),
      inst.hookState[i]? = some (.state w sid) →
      (Pos.runComponent p inst tr).inst.hookState[i]? = some (.state w sid) := by
  intro p
  induction p with
  | ret => exact fun inst tr h => h
  | throwErr => exact fun inst tr h => h
  | emit v p ih => exact fun inst tr h => ih inst _ h
  | useState init k ih =>
    intro inst tr h
    rcases hc : Pos.useState init (some inst) with ⟨i₀, res⟩
    rcases i₀ with _ | inst'
    · simp only [Pos.runComponent, hc]
      exact h
    · rcases res with e | ⟨v, sid₂⟩ <;> simp only [Pos.runComponent, hc]
      · exact pUseState_stable h hc
      · exact ih v inst' tr (pUseState_stable h hc)
  | useMemo fnId fn deps k ih =>
    intro inst tr h
    rcases hc : Pos.useMemo fnId fn deps (some inst) tr with ⟨i₀, tr', res⟩
    rcases i₀ with _ | inst'
    · simp only [Pos.runComponent, hc]
      exact h
    · rcases res with e | v <;> simp only [Pos.runComponent, hc]
      · exact pUseMemo_stable h hc
      · exact ih v inst' tr' (pUseMemo_stable h hc)
  | useEffect fnId cid deps p ih =>
    intro inst tr h
    rcases hc : Pos.useEffect fnId cid deps (some inst) tr with ⟨i₀, tr', res⟩
    rcases i₀ with _ | inst'
    · simp only [Pos.runComponent, hc]
      exact h
    · rcases res with e | u <;> simp only [Pos.runComponent, hc]
      · exact pUseEffect_stable h hc
      · exact ih inst' tr' (pUseEffect_stable h hc)

theorem pRender_state_stable {inst : Pos.Instance V} {i : Nat}
    {w : V} {sid : Nat} (prev : Option Nat) (tr : List (Event V))
    (h : inst.hookState[i]? = some (.state w sid)) :
    (Pos.render inst prev tr).inst.hookState[i]? = some (.state w sid) := by
  have h' := pRun_state_stable inst.Component { inst with hookStateIndex := 0 }
    (tr ++ [Event.renderStart inst.id]) h
  simp only [Pos.render]
  rcases herr : (Pos.runComponent inst.Component { inst with hookStateIndex := 0 }
      (tr ++ [Event.renderStart inst.id])).err with _ | e <;> simp only [herr] <;>
    exact h'

/-! ### Helper lemmas: counting renders through positional hooks and bodies -/

theorem pUseMemo_renderCount {inst : Pos.Instance V} {inst' : Option (Pos.Instance V)}
    {fnId : Nat} {fn : Unit → V} {deps : List V}
    {tr tr' : List (Event V)} {res : Except HookError V} (id : Nat)
    (hc : Pos.useMemo fnId fn deps (some inst) tr = (inst', tr', res)) :
    renderCount tr' id = renderCount tr id := by
  by_cases hinit : inst.initialized
  · rcases hm : inst.hookState[inst.hookStateIndex]? with _ | s
    · simp only [Pos.useMemo, hinit, hm, if_true, Prod.mk.injEq] at hc
      obtain ⟨-, htr, -⟩ := hc
      subst htr
      rfl
    · rcases s with ⟨v₂, sid₂⟩ | ⟨v₂, dep₂⟩ | ⟨c₂, dep₂⟩
      · simp only [Pos.useMemo, hinit, hm, if_true, Prod.mk.injEq] at hc
        obtain ⟨-, htr, -⟩ := hc
        subst htr
        rfl
      · by_cases hdep : depsChanged deps dep₂ <;>
          · simp only [Pos.useMemo, hinit, hm, hdep, Bool.false_eq_true, if_false,
              if_true, Prod.mk.injEq] at hc
            obtain ⟨-, htr, -⟩ := hc
            subst htr
            simp [renderCount, renderCount_append]
      · simp only [Pos.useMemo, hinit, hm, if_true, Prod.mk.injEq] at hc
        obtain ⟨-, htr, -⟩ := hc
        subst htr
        rfl
  · simp only [Pos.useMemo, hinit, Bool.false_eq_true, if_false, Prod.mk.injEq] at hc
    obtain ⟨-, htr, -⟩ := hc
    subst htr
    simp [renderCount, renderCount_append]

theorem pUseEffect_renderCount {inst : Pos.Instance V} {inst' : Option (Pos.Instance V)}
    {fnId : Nat} {cid : Option Nat} {deps : List V}
    {tr tr' : List (Event V)} {res : Except HookError Unit} (id : Nat)
    (hc : Pos.useEffect fnId cid deps (some inst) tr = (inst', tr', res)) :
    renderCount tr' id = renderCount tr id := by
  by_cases hinit : inst.initialized
  · rcases hm : inst.hookState[inst.hookStateIndex]? with _ | s
    · simp only [Pos.useEffect, hinit, hm, if_true, Prod.mk.injEq] at hc
      obtain ⟨-, htr, -⟩ := hc
      subst htr
      rfl
    · rcases s with ⟨v₂, sid₂⟩ | ⟨v₂, dep₂⟩ | ⟨c₂, dep₂⟩
      · simp only [Pos.useEffect, hinit, hm, if_true, Prod.mk.injEq] at hc
        obtain ⟨-, htr, -⟩ := hc
        subst htr
        rfl
      · simp only [Pos.useEffect, hinit, hm, if_true, Prod.mk.injEq] at hc
        obtain ⟨-, htr, -⟩ := hc
        subst htr
        rfl
      · by_cases hdep : depsChanged deps dep₂
        · rcases c₂ with _ | c <;>
            · simp only [Pos.useEffect, hinit, hm, hdep, if_true, Prod.mk.injEq] at hc
              obtain ⟨-, htr, -⟩ := hc
              subst htr
              simp [renderCount, renderCount_append]
        · simp only [Pos.useEffect, hinit, hm, hdep, Bool.false_eq_true, if_false,
            if_true, Prod.mk.injEq] at hc
          obtain ⟨-, htr, -⟩ := hc
          subst htr
          rfl
  · simp only [Pos.useEffect, hinit, Bool.false_eq_true, if_false, Prod.mk.injEq] at hc
    obtain ⟨-, htr, -⟩ := hc
    subst htr
    simp [renderCount, renderCount_append]

theorem pRun_renderCount (id : Nat) :
    ∀ (p : Pos.Prog V) (inst : Pos.Instance V) (tr : List (Event V)),
      renderCount (Pos.runComponent p inst tr).tr id = renderCount tr id := by
  intro p
  induction p with
  | ret => intro inst tr; rfl
  | throwErr => intro inst tr; rfl
  | emit v p ih =>
    intro inst tr
    simp only [Pos.runComponent]
    rw [ih, renderCount_append, renderCount_emitted]
    exact Nat.add_zero _
  | useState init k ih =>
    intro inst tr
    rcases hc : Pos.useState init (some inst) with ⟨i₀, res⟩
    rcases i₀ with _ | inst' <;> rcases res with e | ⟨v, sid⟩ <;>
      simp only [Pos.runComponent, hc]
    exact ih v inst' tr
  | useMemo fnId fn deps k ih =>
    intro inst tr
    rcases hc : Pos.useMemo fnId fn deps (some inst) tr with ⟨i₀, tr', res⟩
    rcases i₀ with _ | inst' <;> rcases res with e | v <;>
      simp only [Pos.runComponent, hc]
    · exact pUseMemo_renderCount id hc
    · exact pUseMemo_renderCount id hc
    · exact pUseMemo_renderCount id hc
    · rw [ih v inst' tr']
      exact pUseMemo_renderCount id hc
  | useEffect fnId cid deps p ih =>
    intro inst tr
    rcases hc : Pos.useEffect fnId cid deps (some inst) tr with ⟨i₀, tr', res⟩
    rcases i₀ with _ | inst' <;> rcases res with e | u <;>
      simp only [Pos.runComponent, hc]
    · exact pUseEffect_renderCount id hc
    · exact pUseEffect_renderCount id hc
    · exact pUseEffect_renderCount id hc
    · rw [ih inst' tr']
      exact pUseEffect_renderCount id hc

theorem pRender_renderCount (inst : Pos.Instance V) (prev : Option Nat)
    (tr : List (Event V)) :
    renderCount (Pos.render inst prev tr).tr inst.id
      = renderCount tr inst.id + 1 := by
  have hbase : renderCount (tr ++ [Event.renderStart inst.id]) inst.id
      = renderCount tr inst.id + 1 := by
    rw [renderCount_append, renderCount_renderStart, if_pos rfl]
  simp only [Pos.render]
  rcases herr : (Pos.runComponent inst.Component { inst with hookStateIndex := 0 }
      (tr ++ [Event.renderStart inst.id])).err with _ | e <;> simp only [herr] <;>
    rw [pRun_renderCount, hbase]

/-! ### Claim C8 -/

/-- C8: every hook operation of either variant invoked while no instance is
active (`activeInstance === undefined`) fails with the invalid-context
error, thrown before any state is touched (the keyed hooks return nothing
but the error; the positional ones return no instance); conversely, with an
active instance no hook call ever produces the invalid-context error — the
outcome is success or the distinct kind-mismatch error. -/
theorem c8_invalid_context_error (V : Type) [DecidableEq V] :
    (∀ (key : String) (init : InitialValue V),
      Keyed.useState key init none = .error .invalidContext) ∧
    (∀ (key : String) (fnId : Nat) (fn : Unit → V) (deps : List V) (tr : List (Event V)),
      Keyed.useMemo key fnId fn deps none tr = .error .invalidContext) ∧
    (∀ (key : String) (fnId : Nat) (cid : Option Nat) (deps : List V) (tr : List (Event V)),
      Keyed.useEffect key fnId cid deps none tr = .error .invalidContext) ∧
    (∀ (init : InitialValue V),
      Pos.useState init none = (none, .error .invalidContext)) ∧
    (∀ (fnId : Nat) (fn : Unit → V) (deps : List V) (tr : List (Event V)),
      Pos.useMemo fnId fn deps none tr = (none, tr, .error .invalidContext)) ∧
    (∀ (fnId : Nat) (cid : Option Nat) (deps : List V) (tr : List (Event V)),
      Pos.useEffect fnId cid deps none tr = (none, tr, .error .invalidContext)) ∧
    (∀ (key : String) (init : InitialValue V) (inst : Keyed.Instance V),
      Keyed.useState key init (some inst) ≠ .error .invalidContext) ∧
    (∀ (key : String) (fnId : Nat) (fn : Unit → V) (deps : List V)
        (inst : Keyed.Instance V) (tr : List (Event V)),
      Keyed.useMemo key fnId fn deps (some inst) tr ≠ .error .invalidContext) ∧
    (∀ (key : String) (fnId : Nat) (cid : Option Nat) (deps : List V)
        (inst : Keyed.Instance V) (tr : List (Event V)),
      Keyed.useEffect key fnId cid deps (some inst) tr ≠ .error .invalidContext) ∧
    (∀ (init : InitialValue V) (inst : Pos.Instance V),
      (Pos.useState init (some inst)).2 ≠ .error .invalidContext) ∧
    (∀ (fnId : Nat) (fn : Unit → V) (deps : List V) (inst : Pos.Instance V)
        (tr : List (Event V)),
      (Pos.useMemo fnId fn deps (some inst) tr).2.2 ≠ .error .invalidContext) ∧
    (∀ (fnId : Nat) (cid : Option Nat) (deps : List V) (inst : Pos.Instance V)
        (tr : List (Event V)),
      (Pos.useEffect fnId cid deps (some inst) tr).2.2 ≠ .error .invalidContext) := by
  refine ⟨fun _ _ => rfl, fun _ _ _ _ _ => rfl, fun _ _ _ _ _ => rfl,
    fun _ => rfl, fun _ _ _ _ => rfl, fun _ _ _ _ => rfl, ?_, ?_, ?_, ?_, ?_, ?_⟩
  · intro key init inst hEq
    rcases hm : Keyed.mapGet inst.hookState key with _ | ⟨a, d⟩
    · simp [Keyed.useState, hm] at hEq
    · rcases d with _ | _ | _ <;> simp [Keyed.useState, hm] at hEq
  · intro key fnId fn deps inst tr hEq
    rcases hm : Keyed.mapGet inst.hookState key with _ | ⟨a, d⟩
    · simp [Keyed.useMemo, hm] at hEq
    · rcases d with _ | ⟨v, dep⟩ | _
      · simp [Keyed.useMemo, hm] at hEq
      · by_cases hdep : depsChanged deps dep <;> simp [Keyed.useMemo, hm, hdep] at hEq
      · simp [Keyed.useMemo, hm] at hEq
  · intro key fnId cid deps inst tr hEq
    rcases hm : Keyed.mapGet inst.hookState key with _ | ⟨a, d⟩
    · simp [Keyed.useEffect, hm] at hEq
    · rcases d with _ | _ | ⟨c, dep⟩
      · simp [Keyed.useEffect, hm] at hEq
      · simp [Keyed.useEffect, hm] at hEq
      · rcases c with _ | c <;> by_cases hdep : depsChanged deps dep <;>
          simp [Keyed.useEffect, hm, hdep] at hEq
  · intro init inst hEq
    by_cases hinit : inst.initialized
    · rcases hm : inst.hookState[inst.hookStateIndex]? with _ | s <;>
        [skip; rcases s with _ | _ | _] <;>
        simp [Pos.useState, hinit, hm] at hEq
    · simp [Pos.useState, hinit] at hEq
  · intro fnId fn deps inst tr hEq
    by_cases hinit : inst.initialized
    · rcases hm : inst.hookState[inst.hookStateIndex]? with _ | s
      · simp [Pos.useMemo, hinit, hm] at hEq
      · rcases s with _ | ⟨v, dep⟩ | _
        · simp [Pos.useMemo, hinit, hm] at hEq
        · by_cases hdep : depsChanged deps dep <;>
            simp [Pos.useMemo, hinit, hm, hdep] at hEq
        · simp [Pos.useMemo, hinit, hm] at hEq
    · simp [Pos.useMemo, hinit] at hEq
  · intro fnId cid deps inst tr hEq
    by_cases hinit : inst.initialized
    · rcases hm : inst.hookState[inst.hookStateIndex]? with _ | s
      · simp [Pos.useEffect, hinit, hm] at hEq
      · rcases s with _ | _ | ⟨c, dep⟩
        · simp [Pos.useEffect, hinit, hm] at hEq
        · simp [Pos.useEffect, hinit, hm] at hEq
        · rcases c with _ | c <;> by_cases hdep : depsChanged deps dep <;>
            simp [Pos.useEffect, hinit, hm, hdep] at hEq
    · simp [Pos.useEffect, hinit] at hEq

/-! ### Claim C9 -/

/-- C9: a hook call whose subsequent request resolves to an existing slot
created by a different hook kind fails with the kind-mismatch error, which
propagates out of the component body with the keyed instance completely
unchanged; in the positional variant (where resolution happens only once
`initialized` holds) the same error is produced both on a kind mismatch and
when the cursor indexes past the end of the slot array, the slot array is
left untouched, and only the cursor has advanced. -/
theorem c9_kind_mismatch_error (V : Type) [DecidableEq V] :
    (∀ (inst : Keyed.Instance V) (tr : List (Event V)) (key : String)
        (init : InitialValue V) (k : V → Keyed.Prog V) (slot : Keyed.Slot V),
      Keyed.mapGet inst.hookState key = some slot → slot.type ≠ .state →
      Keyed.runComponent (.useState key init k) inst tr
        = ⟨inst, tr, some (.hook .kindMismatch)⟩) ∧
    (∀ (inst : Keyed.Instance V) (tr : List (Event V)) (key : String)
        (fnId : Nat) (fn : Unit → V) (deps : List V) (k : V → Keyed.Prog V)
        (slot : Keyed.Slot V),
      Keyed.mapGet inst.hookState key = some slot → slot.type ≠ .memo →
      Keyed.runComponent (.useMemo key fnId fn deps k) inst tr
        = ⟨inst, tr, some (.hook .kindMismatch)⟩) ∧
    (∀ (inst : Keyed.Instance V) (tr : List (Event V)) (key : String)
        (fnId : Nat) (cid : Option Nat) (deps : List V) (p : Keyed.Prog V)
        (slot : Keyed.Slot V),
      Keyed.mapGet inst.hookState key = some slot → slot.type ≠ .effect →
      Keyed.runComponent (.useEffect key fnId cid deps p) inst tr
        = ⟨inst, tr, some (.hook .kindMismatch)⟩) ∧
    (∀ (inst : Pos.Instance V) (tr : List (Event V)) (init : InitialValue V)
        (k : V → Pos.Prog V),
      inst.initialized = true →
      (inst.hookState[inst.hookStateIndex]? = none ∨
        ∃ slot, inst.hookState[inst.hookStateIndex]? = some slot ∧ slot.type ≠ .state) →
      Pos.runComponent (.useState init k) inst tr
        = ⟨{ inst with hookStateIndex := inst.hookStateIndex + 1 }, tr,
           some (.hook .kindMismatch)⟩) ∧
    (∀ (inst : Pos.Instance V) (tr : List (Event V)) (fnId : Nat) (fn : Unit → V)
        (deps : List V) (k : V → Pos.Prog V),
      inst.initialized = true →
      (inst.hookState[inst.hookStateIndex]? = none ∨
        ∃ slot, inst.hookState[inst.hookStateIndex]? = some slot ∧ slot.type ≠ .memo) →
      Pos.runComponent (.useMemo fnId fn deps k) inst tr
        = ⟨{ inst with hookStateIndex := inst.hookStateIndex + 1 }, tr,
           some (.hook .kindMismatch)⟩) ∧
    (∀ (inst : Pos.Instance V) (tr : List (Event V)) (fnId : Nat) (cid : Option Nat)
        (deps : List V) (p : Pos.Prog V),
      inst.initialized = true →
      (inst.hookState[inst.hookStateIndex]? = none ∨
        ∃ slot, inst.hookState[inst.hookStateIndex]? = some slot ∧ slot.type ≠ .effect) →
      Pos.runComponent (.useEffect fnId cid deps p) inst tr
        = ⟨{ inst with hookStateIndex := inst.hookStateIndex + 1 }, tr,
           some (.hook .kindMismatch)⟩) := by
  refine ⟨?_, ?_, ?_, ?_, ?_, ?_⟩
  · intro inst tr key init k slot hm hty
    rcases slot with ⟨a, d⟩
    rcases d with ⟨v, sid⟩ | ⟨v, dep⟩ | ⟨c, dep⟩
    · exact absurd rfl hty
    all_goals
      have hc : Keyed.useState key init (some inst) = .error .kindMismatch := by
        simp [Keyed.useState, hm]
    all_goals simp [Keyed.runComponent, hc]
  · intro inst tr key fnId fn deps k slot hm hty
    rcases slot with ⟨a, d⟩
    rcases d with ⟨v, sid⟩ | ⟨v, dep⟩ | ⟨c, dep⟩
    · have hc : Keyed.useMemo key fnId fn deps (some inst) tr = .error .kindMismatch := by
        simp [Keyed.useMemo, hm]
      simp [Keyed.runComponent, hc]
    · exact absurd rfl hty
    · have hc : Keyed.useMemo key fnId fn deps (some inst) tr = .error .kindMismatch := by
        simp [Keyed.useMemo, hm]
      simp [Keyed.runComponent, hc]
  · intro inst tr key fnId cid deps p slot hm hty
    rcases slot with ⟨a, d⟩
    rcases d with ⟨v, sid⟩ | ⟨v, dep⟩ | ⟨c, dep⟩
    · have hc : Keyed.useEffect key fnId cid deps (some inst) tr = .error .kindMismatch := by
        simp [Keyed.useEffect, hm]
      simp [Keyed.runComponent, hc]
    · have hc : Keyed.useEffect key fnId cid deps (some inst) tr = .error .kindMismatch := by
        simp [Keyed.useEffect, hm]
      simp [Keyed.runComponent, hc]
    · exact absurd rfl hty
  · intro inst tr init k hinit hslot
    have hc : Pos.useState init (some inst)
        = (some { inst with hookStateIndex := inst.hookStateIndex + 1 },
           .error .kindMismatch) := by
      rcases hslot with hnone | ⟨slot, hsome, hty⟩
      · simp [Pos.useState, hinit, hnone]
      · rcases slot with ⟨v, sid⟩ | _ | _
        · exact absurd rfl hty
        · simp [Pos.useState, hinit, hsome]
        · simp [Pos.useState, hinit, hsome]
    simp [Pos.runComponent, hc]
  · intro inst tr fnId fn deps k hinit hslot
    have hc : Pos.useMemo fnId fn deps (some inst) tr
        = (some { inst with hookStateIndex := inst.hookStateIndex + 1 }, tr,
           .error .kindMismatch) := by
      rcases hslot with hnone | ⟨slot, hsome, hty⟩
      · simp [Pos.useMemo, hinit, hnone]
      · rcases slot with _ | ⟨v, dep⟩ | _
        · simp [Pos.useMemo, hinit, hsome]
        · exact absurd rfl hty
        · simp [Pos.useMemo, hinit, hsome]
    simp [Pos.runComponent, hc]
  · intro inst tr fnId cid deps p hinit hslot
    have hc : Pos.useEffect fnId cid deps (some inst) tr
        = (some { inst with hookStateIndex := inst.hookStateIndex + 1 }, tr,
           .error .kindMismatch) := by
      rcases hslot with hnone | ⟨slot, hsome, hty⟩
      · simp [Pos.useEffect, hinit, hnone]
      · rcases slot with _ | _ | ⟨c, dep⟩
        · simp [Pos.useEffect, hinit, hsome]
        · simp [Pos.useEffect, hinit, hsome]
        · exact absurd rfl hty
    simp [Pos.runComponent, hc]

/-- A concrete keyed instance holding one effect slot under key "a", used to
exercise the error paths at a checkable input. -/
def mismatchInstance : Keyed.Instance Nat :=
  ⟨0, .ret, [("a", ⟨true, .effect none []⟩)], none, 0⟩

/-- C9 witness: a `useState` call landing on the effect slot of
`mismatchInstance` fails with the kind-mismatch error and mutates
nothing. -/
theorem c9_kind_mismatch_error_witness :
    Keyed.runComponent (.useState "a" (.val 0) fun _ => .ret) mismatchInstance []
      = ⟨mismatchInstance, [], some (.hook .kindMismatch)⟩ :=
  (c9_kind_mismatch_error Nat).1 mismatchInstance [] "a" (.val 0) (fun _ => .ret)
    ⟨true, .effect none []⟩ rfl (by decide)

/-! ### Claim C4 -/

/-- C4: on a subsequent `useMemo` request (slot present, kind memo), the
compute callback is re-invoked — a `compute` event is appended and its fresh
result stored — if and only if some index strictly below the new dependency
array's length differs strictly from the stored array (a missing stored
element counts as different); otherwise the cached value is returned with
the trace unchanged.  The comparison visits only indices of the new array,
so an empty new dependency array never recomputes.  Holds in both
variants. -/
theorem c4_useMemo_dependency_gated (V : Type) [DecidableEq V] :
    (∀ (ns os : List V),
      depsChanged ns os = true ↔ ∃ i, i < ns.length ∧ ns[i]? ≠ os[i]?) ∧
    (∀ (inst : Keyed.Instance V) (key : String) (fnId : Nat) (fn : Unit → V)
        (deps : List V) (a : Bool) (value : V) (oldDeps : List V) (tr : List (Event V)),
      Keyed.mapGet inst.hookState key = some ⟨a, .memo value oldDeps⟩ →
      ((∃ i, i < deps.length ∧ deps[i]? ≠ oldDeps[i]?) →
        Keyed.useMemo key fnId fn deps (some inst) tr
          = .ok (fn (),
              { inst with hookState :=
                  Keyed.mapReplace inst.hookState key ⟨true, .memo (fn ()) deps⟩ },
              tr ++ [.compute fnId])) ∧
      (¬(∃ i, i < deps.length ∧ deps[i]? ≠ oldDeps[i]?) →
        Keyed.useMemo key fnId fn deps (some inst) tr
          = .ok (value,
              { inst with hookState :=
                  Keyed.mapReplace inst.hookState key ⟨true, .memo value oldDeps⟩ },
              tr))) ∧
    (∀ (inst : Pos.Instance V) (fnId : Nat) (fn : Unit → V) (deps : List V)
        (value : V) (oldDeps : List V) (tr : List (Event V)),
      inst.initialized = true →
      inst.hookState[inst.hookStateIndex]? = some (.memo value oldDeps) →
      ((∃ i, i < deps.length ∧ deps[i]? ≠ oldDeps[i]?) →
        Pos.useMemo fnId fn deps (some inst) tr
          = (some { inst with
                      hookStateIndex := inst.hookStateIndex + 1,
                      hookState := inst.hookState.set inst.hookStateIndex
                        (.memo (fn ()) deps) },
             tr ++ [.compute fnId], .ok (fn ()))) ∧
      (¬(∃ i, i < deps.length ∧ deps[i]? ≠ oldDeps[i]?) →
        Pos.useMemo fnId fn deps (some inst) tr
          = (some { inst with hookStateIndex := inst.hookStateIndex + 1 },
             tr, .ok value))) := by
  refine ⟨depsChanged_iff, ?_, ?_⟩
  · intro inst key fnId fn deps a value oldDeps tr hm
    constructor
    · intro hex
      have hdep : depsChanged deps oldDeps = true := (depsChanged_iff _ _).mpr hex
      simp [Keyed.useMemo, hm, hdep]
    · intro hnex
      have hdep : depsChanged deps oldDeps = false := by
        rcases hb : depsChanged deps oldDeps with _ | _
        · rfl
        · exact absurd ((depsChanged_iff _ _).mp hb) hnex
      simp [Keyed.useMemo, hm, hdep]
  · intro inst fnId fn deps value oldDeps tr hinit hm
    constructor
    · intro hex
      have hdep : depsChanged deps oldDeps = true := (depsChanged_iff _ _).mpr hex
      simp [Pos.useMemo, hinit, hm, hdep]
    · intro hnex
      have hdep : depsChanged deps oldDeps = false := by
        rcases hb : depsChanged deps oldDeps with _ | _
        · rfl
        · exact absurd ((depsChanged_iff _ _).mp hb) hnex
      simp [Pos.useMemo, hinit, hm, hdep]

/-- A concrete keyed instance holding one memo slot under key "m" with
cached value 6 computed from dependencies [2, 3]. -/
def memoInstance : Keyed.Instance Nat :=
  ⟨0, .ret, [("m", ⟨true, .memo 6 [2, 3]⟩)], none, 0⟩

/-- C4 witness: on `memoInstance`, dependencies [2, 4] recompute (index 1
differs) while dependencies [2, 3] return the cached 6 with no `compute`
event; the empty dependency array also returns the cache untouched. -/
theorem c4_useMemo_dependency_gated_witness :
    Keyed.useMemo "m" 9 (fun _ => 7) [2, 4] (some memoInstance) []
      = .ok (7, { memoInstance with
          hookState := [("m", ⟨true, .memo 7 [2, 4]⟩)] }, [.compute 9]) ∧
    Keyed.useMemo "m" 9 (fun _ => 7) [2, 3] (some memoInstance) []
      = .ok (6, { memoInstance with
          hookState := [("m", ⟨true, .memo 6 [2, 3]⟩)] }, []) ∧
    Keyed.useMemo "m" 9 (fun _ => 7) [] (some memoInstance) []
      = .ok (6, { memoInstance with
          hookState := [("m", ⟨true, .memo 6 [2, 3]⟩)] }, []) := by
  refine ⟨?_, ?_, ?_⟩
  · exact (((c4_useMemo_dependency_gated Nat).2.1 memoInstance "m" 9 (fun _ => 7)
      [2, 4] true 6 [2, 3] [] rfl).1 ⟨1, by decide, by decide⟩).trans (by rfl)
  · exact (((c4_useMemo_dependency_gated Nat).2.1 memoInstance "m" 9 (fun _ => 7)
      [2, 3] true 6 [2, 3] [] rfl).2 (by
        rintro ⟨i, hi, hne⟩
        simp at hi
        interval_cases i <;> simp at hne)).trans (by rfl)
  · exact (((c4_useMemo_dependency_gated Nat).2.1 memoInstance "m" 9 (fun _ => 7)
      [] true 6 [2, 3] [] rfl).2 (by rintro ⟨i, hi, hne⟩; simp at hi)).trans (by rfl)

/-! ### Claim C3 -/

theorem kUnmount_foldl (m : List (String × Keyed.Slot V)) (tr : List (Event V)) :
    m.foldl
      (fun acc kv =>
        match kv.2.data with
        | .effect (some c) _ => acc ++ [.cleanupRun c]
        | _ => acc)
      tr
    = tr ++ m.filterMap fun kv =>
        match kv.2.data with
        | .effect (some c) _ => some (Event.cleanupRun c)
        | _ => none := by
  induction m generalizing tr with
  | nil => simp
  | cons kv rest ih =>
    obtain ⟨k, a, d⟩ := kv
    rcases d with ⟨v, sid⟩ | ⟨v, dep⟩ | ⟨c, dep⟩
    · simpa [List.filterMap_cons] using ih tr
    · simpa [List.filterMap_cons] using ih tr
    · rcases c with _ | c
      · simpa [List.filterMap_cons] using ih tr
      · simp only [List.foldl_cons, List.filterMap_cons]
        rw [ih (tr ++ [Event.cleanupRun c])]
        simp

/-- C3: keyed `useEffect` lifecycle.  On the first request for a key the
effect callback runs synchronously within the hook call (an `effectRun`
event is appended before the call returns) and its return value is stored
as the slot's cleanup.  On a subsequent request whose dependency array
differs from the stored one under the shared comparison rule, the stored
cleanup — when present — runs strictly before the effect callback reruns,
both within the hook call, and the new cleanup and dependencies are stored.
On unmount, the cleanups of all effect slots holding one run in slot
storage order. -/
theorem c3_useEffect_lifecycle (V : Type) [DecidableEq V] :
    (∀ (inst : Keyed.Instance V) (key : String) (fnId : Nat) (cid : Option Nat)
        (deps : List V) (tr : List (Event V)),
      Keyed.mapGet inst.hookState key = none →
      Keyed.useEffect key fnId cid deps (some inst) tr
        = .ok ({ inst with
                  hookState := inst.hookState ++ [(key, ⟨true, .effect cid deps⟩)] },
               tr ++ [.effectRun fnId])) ∧
    (∀ (inst : Keyed.Instance V) (key : String) (fnId : Nat) (cid : Option Nat)
        (deps : List V) (a : Bool) (c : Nat) (oldDeps : List V) (tr : List (Event V)),
      Keyed.mapGet inst.hookState key = some ⟨a, .effect (some c) oldDeps⟩ →
      (∃ i, i < deps.length ∧ deps[i]? ≠ oldDeps[i]?) →
      Keyed.useEffect key fnId cid deps (some inst) tr
        = .ok ({ inst with
                  hookState := Keyed.mapReplace inst.hookState key ⟨true, .effect cid deps⟩ },
               tr ++ [.cleanupRun c, .effectRun fnId])) ∧
    (∀ (inst : Keyed.Instance V) (key : String) (fnId : Nat) (cid : Option Nat)
        (deps : List V) (a : Bool) (oldDeps : List V) (tr : List (Event V)),
      Keyed.mapGet inst.hookState key = some ⟨a, .effect none oldDeps⟩ →
      (∃ i, i < deps.length ∧ deps[i]? ≠ oldDeps[i]?) →
      Keyed.useEffect key fnId cid deps (some inst) tr
        = .ok ({ inst with
                  hookState := Keyed.mapReplace inst.hookState key ⟨true, .effect cid deps⟩ },
               tr ++ [.effectRun fnId])) ∧
    (∀ (inst : Keyed.Instance V) (tr : List (Event V)),
      Keyed.unmount inst tr
        = tr ++ inst.hookState.filterMap fun kv =>
            match kv.2.data with
            | .effect (some c) _ => some (Event.cleanupRun c)
            | _ => none) := by
  refine ⟨?_, ?_, ?_, fun inst tr => kUnmount_foldl inst.hookState tr⟩
  · intro inst key fnId cid deps tr hm
    simp [Keyed.useEffect, hm]
  · intro inst key fnId cid deps a c oldDeps tr hm hex
    have hdep : depsChanged deps oldDeps = true := (depsChanged_iff _ _).mpr hex
    simp [Keyed.useEffect, hm, hdep]
  · intro inst key fnId cid deps a oldDeps tr hm hex
    have hdep : depsChanged deps oldDeps = true := (depsChanged_iff _ _).mpr hex
    simp [Keyed.useEffect, hm, hdep]

/-- A concrete keyed instance holding two effect slots: slot "e" with
cleanup 5 and dependencies [1], then slot "f" with cleanup 8. -/
def effectInstance : Keyed.Instance Nat :=
  ⟨0, .ret, [("e", ⟨true, .effect (some 5) [1]⟩), ("f", ⟨true, .effect (some 8) []⟩)], none, 0⟩

/-- C3 witness: on `effectInstance`, a first request for key "g" runs the
effect; a subsequent request for "e" with changed dependencies runs cleanup
5 then the effect; unmount runs cleanups 5 then 8 in storage order. -/
theorem c3_useEffect_lifecycle_witness :
    Keyed.useEffect "g" 3 (some 9) [] (some effectInstance) []
      = .ok ({ effectInstance with
                hookState := effectInstance.hookState ++ [("g", ⟨true, .effect (some 9) []⟩)] },
             [.effectRun 3]) ∧
    Keyed.useEffect "e" 4 (some 6) [2] (some effectInstance) []
      = .ok ({ effectInstance with
                hookState := [("e", ⟨true, .effect (some 6) [2]⟩),
                              ("f", ⟨true, .effect (some 8) []⟩)] },
             [.cleanupRun 5, .effectRun 4]) ∧
    Keyed.unmount effectInstance [] = [.cleanupRun 5, .cleanupRun 8] := by
  refine ⟨?_, ?_, ?_⟩
  · exact (c3_useEffect_lifecycle Nat).1 effectInstance "g" 3 (some 9) [] [] rfl
  · exact (((c3_useEffect_lifecycle Nat).2.1 effectInstance "e" 4 (some 6) [2]
      true 5 [1] []) rfl ⟨0, by decide, by decide⟩).trans (by rfl)
  · exact ((c3_useEffect_lifecycle Nat).2.2.2 effectInstance []).trans (by rfl)

/-! ### Claim C2 -/

theorem kSweepEvents_mem {m : List (String × Keyed.Slot V)} {key : String}
    {c : Nat} {dep : List V}
    (h : Keyed.mapGet m key = some ⟨false, .effect (some c) dep⟩) :
    Event.cleanupRun c ∈ Keyed.sweepEvents m := by
  induction m with
  | nil => simp [Keyed.mapGet] at h
  | cons kv rest ih =>
    obtain ⟨k, s₀⟩ := kv
    by_cases hk : k = key
    · subst hk
      simp only [Keyed.mapGet, if_pos rfl] at h
      injection h with h
      subst h
      simp [Keyed.sweepEvents]
    · simp only [Keyed.mapGet, if_neg hk] at h
      obtain ⟨a₀, d₀⟩ := s₀
      have hrec := ih h
      cases a₀ <;> rcases d₀ with _ | _ | ⟨c₀, dep₀⟩ <;>
        try simpa [Keyed.sweepEvents] using hrec
      rcases c₀ with _ | c₀
      · simpa [Keyed.sweepEvents] using hrec
      · simp only [Keyed.sweepEvents, List.mem_cons]
        exact Or.inr hrec

/-- C2: in the keyed variant, when the component body finishes without an
error, the post-render pass of `render` removes every slot that stayed
inactive and is of kind effect — running its cleanup, when present, which
then appears in the trace — while every inactive state or memo slot is
retained unchanged, so that a later `useState` request for the same key
returns its preserved value and setter instead of re-initializing.  (The
removal conclusion assumes the slot map's keys are distinct, which holds
for every reachable instance since slots are created only for absent
keys.) -/
theorem c2_inactive_slot_sweep (V : Type) [DecidableEq V] :
    ∀ (inst : Keyed.Instance V) (prev : Option Nat) (tr : List (Event V))
      (r : Keyed.RunResult V),
      Keyed.runComponent inst.Component (Keyed.setInactive inst)
          (tr ++ [Event.renderStart inst.id]) = r →
      r.err = none →
      ∀ (key : String) (slot : Keyed.Slot V),
        Keyed.mapGet r.inst.hookState key = some slot →
        slot.active = false →
        (slot.type = .effect →
          ((r.inst.hookState.map Prod.fst).Nodup →
            Keyed.mapGet (Keyed.render inst prev tr).inst.hookState key = none) ∧
          (∀ c dep, slot.data = .effect (some c) dep →
            Event.cleanupRun c ∈ (Keyed.render inst prev tr).tr)) ∧
        (slot.type ≠ .effect →
          Keyed.mapGet (Keyed.render inst prev tr).inst.hookState key = some slot ∧
          (∀ (init : InitialValue V) (v : V) (sid : Nat), slot.data = .state v sid →
            ∃ inst', Keyed.useState key init (some (Keyed.render inst prev tr).inst)
              = .ok (v, sid, inst'))) := by
  intro inst prev tr r hr herr key slot hm hact
  have hrender : Keyed.render inst prev tr
      = ⟨{ r.inst with hookState := Keyed.sweepRemove r.inst.hookState },
         prev, r.tr ++ Keyed.sweepEvents r.inst.hookState, none⟩ := by
    simp [Keyed.render, hr, herr]
  constructor
  · intro hty
    obtain ⟨a₀, d₀⟩ := slot
    rcases d₀ with _ | _ | ⟨c₀, dep₀⟩ <;> simp [Keyed.Slot.type] at hty
    simp only [Bool.false_eq_true] at hact
    subst hact
    constructor
    · intro hnd
      rw [hrender]
      exact kMapGet_filter_dropped hnd hm rfl
    · intro c dep hdata
      injection hdata with h₁ h₂
      subst h₁
      subst h₂
      rw [hrender]
      exact List.mem_append_right _ (kSweepEvents_mem hm)
  · intro hty
    have hkept : Keyed.keptSlot slot = true := by
      obtain ⟨a₀, d₀⟩ := slot
      rcases d₀ with _ | _ | _ <;> simp [Keyed.keptSlot]
      exact absurd rfl hty
    have hget : Keyed.mapGet (Keyed.render inst prev tr).inst.hookState key = some slot := by
      rw [hrender]
      exact kMapGet_filter_kept hm hkept
    refine ⟨hget, ?_⟩
    intro init v sid hdata
    obtain ⟨a₀, d₀⟩ := slot
    simp only at hdata
    subst hdata
    refine ⟨{ (Keyed.render inst prev tr).inst with
              hookState := Keyed.mapReplace (Keyed.render inst prev tr).inst.hookState key
                ⟨true, Keyed.SlotData.state v sid⟩ }, ?_⟩
    simp [Keyed.useState, hget]

/-- A concrete keyed instance whose component requests nothing, leaving its
effect slot "e" (cleanup 7) and state slot "s" (value 5) inactive after the
render. -/
def sweepInstance : Keyed.Instance Nat :=
  ⟨0, .ret, [("e", ⟨true, .effect (some 7) []⟩), ("s", ⟨true, .state 5 0⟩)], none, 1⟩

/-- C2 witness: rendering `sweepInstance` removes the inactive effect slot
"e" after running cleanup 7, and retains the inactive state slot "s", whose
next `useState` request recovers value 5 and setter 0. -/
theorem c2_inactive_slot_sweep_witness :
    Keyed.mapGet (Keyed.render sweepInstance none []).inst.hookState "e" = none ∧
    Event.cleanupRun 7 ∈ (Keyed.render sweepInstance none []).tr ∧
    Keyed.mapGet (Keyed.render sweepInstance none []).inst.hookState "s"
      = some ⟨false, .state 5 0⟩ ∧
    ∃ inst', Keyed.useState "s" (.val 0) (some (Keyed.render sweepInstance none []).inst)
      = .ok (5, 0, inst') := by
  have h := c2_inactive_slot_sweep Nat sweepInstance none []
    (Keyed.runComponent sweepInstance.Component (Keyed.setInactive sweepInstance)
      ([] ++ [Event.renderStart sweepInstance.id])) rfl rfl
  have he := h "e" ⟨false, .effect (some 7) []⟩ rfl rfl
  have hs := h "s" ⟨false, .state 5 0⟩ rfl rfl
  exact ⟨(he.1 rfl).1 (by decide), (he.1 rfl).2 7 [] rfl,
    (hs.2 (by decide)).1, (hs.2 (by decide)).2 (.val 0) 5 0 rfl⟩

/-! ### Claim C5 -/

/-- A keyed instance whose component body throws immediately. -/
def throwingInstance : Keyed.Instance Nat := ⟨0, .throwErr, [], none, 0⟩

/-- A positional instance whose component body throws immediately. -/
def throwingInstanceP : Pos.Instance Nat := ⟨1, .throwErr, true, 0, [], 0⟩

/-- C5 counterexample: `render` has no try/finally, so when the component
body throws, the error escapes with the process-wide active-instance
pointer still set to the rendering instance instead of being restored to
its prior value (`undefined` here) — in both variants. -/
theorem c5_pointer_not_restored_counterexample :
    (Keyed.render throwingInstance none []).err = some .thrown ∧
    (Keyed.render throwingInstance none []).activeInstance = some 0 ∧
    (Keyed.render throwingInstance none []).activeInstance ≠ none ∧
    (Pos.render throwingInstanceP none []).err = some .thrown ∧
    (Pos.render throwingInstanceP none []).activeInstance = some 1 ∧
    (Pos.render throwingInstanceP none []).activeInstance ≠ none := by
  exact ⟨rfl, rfl, by decide, rfl, rfl, by decide⟩

/-- C5 amended: in both variants `render` executes the body with the
active-instance pointer set to the rendering instance and restores the
prior value on every normally-returning exit; when the body throws, the
exception propagates with the pointer left equal to the rendering instance
— it is not restored. -/
theorem c5_active_instance_restore (V : Type) [DecidableEq V] :
    (∀ (inst : Keyed.Instance V) (prev : Option Nat) (tr : List (Event V)),
      (Keyed.render inst prev tr).activeInstance
        = if (Keyed.render inst prev tr).err = none then prev else some inst.id) ∧
    (∀ (inst : Pos.Instance V) (prev : Option Nat) (tr : List (Event V)),
      (Pos.render inst prev tr).activeInstance
        = if (Pos.render inst prev tr).err = none then prev else some inst.id) := by
  constructor
  · intro inst prev tr
    rcases herr : (Keyed.runComponent inst.Component (Keyed.setInactive inst)
        (tr ++ [Event.renderStart inst.id])).err with _ | e
    · have ha : (Keyed.render inst prev tr).activeInstance = prev := by
        simp [Keyed.render, herr]
      have he : (Keyed.render inst prev tr).err = none := by
        simp [Keyed.render, herr]
      rw [ha, he, if_pos rfl]
    · have ha : (Keyed.render inst prev tr).activeInstance = some inst.id := by
        simp [Keyed.render, herr]
      have he : (Keyed.render inst prev tr).err = some e := by
        simp [Keyed.render, herr]
      rw [ha, he]
      simp
  · intro inst prev tr
    rcases herr : (Pos.runComponent inst.Component { inst with hookStateIndex := 0 }
        (tr ++ [Event.renderStart inst.id])).err with _ | e
    · have ha : (Pos.render inst prev tr).activeInstance = prev := by
        simp [Pos.render, herr]
      have he : (Pos.render inst prev tr).err = none := by
        simp [Pos.render, herr]
      rw [ha, he, if_pos rfl]
    · have ha : (Pos.render inst prev tr).activeInstance = some inst.id := by
        simp [Pos.render, herr]
      have he : (Pos.render inst prev tr).err = some e := by
        simp [Pos.render, herr]
      rw [ha, he]
      simp

/-! ### Claim C7 -/

/-- C7 counterexample: the keyed `mount` creates the instance object without
any `initialized` property and never assigns one, so after the mount's
single render completes the property still reads as `undefined` — not
`false` at allocation and never set to `true`. -/
theorem c7_keyed_no_initialized_counterexample :
    (Keyed.mount (V := Nat) .ret 0 none []).err = none ∧
    (Keyed.mount (V := Nat) .ret 0 none []).inst.initialized = none ∧
    (Keyed.mount (V := Nat) .ret 0 none []).inst.initialized ≠ some true ∧
    (Keyed.mount (V := Nat) .ret 0 none []).inst.initialized ≠ some false := by
  exact ⟨rfl, rfl, by decide, by decide⟩

theorem pUseState_initialized {inst inst' : Pos.Instance V} {init : InitialValue V}
    {res : Except HookError (V × Nat)}
    (hc : Pos.useState init (some inst) = (some inst', res)) :
    inst'.initialized = inst.initialized := by
  by_cases hinit : inst.initialized
  · rcases hm : inst.hookState[inst.hookStateIndex]? with _ | s <;>
      [skip; rcases s with _ | _ | _] <;>
      · simp only [Pos.useState, hinit, hm, if_true, Prod.mk.injEq,
          Option.some.injEq] at hc
        obtain ⟨hinst, -⟩ := hc
        subst hinst
        first
        | rfl
        | exact hinit.symm
  · simp only [Pos.useState, hinit, Bool.false_eq_true, if_false, Prod.mk.injEq,
      Option.some.injEq] at hc
    obtain ⟨hinst, -⟩ := hc
    subst hinst
    first
    | rfl
    | exact (by simpa using hinit : inst.initialized = false).symm

theorem pUseMemo_initialized {inst inst' : Pos.Instance V} {fnId : Nat}
    {fn : Unit → V} {deps : List V} {tr tr' : List (Event V)}
    {res : Except HookError V}
    (hc : Pos.useMemo fnId fn deps (some inst) tr = (some inst', tr', res)) :
    inst'.initialized = inst.initialized := by
  by_cases hinit : inst.initialized
  · rcases hm : inst.hookState[inst.hookStateIndex]? with _ | s
    · simp only [Pos.useMemo, hinit, hm, if_true, Prod.mk.injEq,
        Option.some.injEq] at hc
      obtain ⟨hinst, -⟩ := hc
      subst hinst
      first
      | rfl
      | exact hinit.symm
    · rcases s with _ | ⟨v₂, dep₂⟩ | _
      · simp only [Pos.useMemo, hinit, hm, if_true, Prod.mk.injEq,
          Option.some.injEq] at hc
        obtain ⟨hinst, -⟩ := hc
        subst hinst
        first
        | rfl
        | exact hinit.symm
      · by_cases hdep : depsChanged deps dep₂ <;>
          · simp only [Pos.useMemo, hinit, hm, hdep, Bool.false_eq_true, if_false,
              if_true, Prod.mk.injEq, Option.some.injEq] at hc
            obtain ⟨hinst, -⟩ := hc
            subst hinst
            first
            | rfl
            | exact hinit.symm
      · simp only [Pos.useMemo, hinit, hm, if_true, Prod.mk.injEq,
          Option.some.injEq] at hc
        obtain ⟨hinst, -⟩ := hc
        subst hinst
        first
        | rfl
        | exact hinit.symm
  · simp only [Pos.useMemo, hinit, Bool.false_eq_true, if_false, Prod.mk.injEq,
      Option.some.injEq] at hc
    obtain ⟨hinst, -⟩ := hc
    subst hinst
    first
    | rfl
    | exact (by simpa using hinit : inst.initialized = false).symm

theorem pUseEffect_initialized {inst inst' : Pos.Instance V} {fnId : Nat}
    {cid : Option Nat} {deps : List V} {tr tr' : List (Event V)}
    {res : Except HookError Unit}
    (hc : Pos.useEffect fnId cid deps (some inst) tr = (some inst', tr', res)) :
    inst'.initialized = inst.initialized := by
  by_cases hinit : inst.initialized
  · rcases hm : inst.hookState[inst.hookStateIndex]? with _ | s
    · simp only [Pos.useEffect, hinit, hm, if_true, Prod.mk.injEq,
        Option.some.injEq] at hc
      obtain ⟨hinst, -⟩ := hc
      subst hinst
      first
      | rfl
      | exact hinit.symm
    · rcases s with _ | _ | ⟨c₂, dep₂⟩
      · simp only [Pos.useEffect, hinit, hm, if_true, Prod.mk.injEq,
          Option.some.injEq] at hc
        obtain ⟨hinst, -⟩ := hc
        subst hinst
        first
        | rfl
        | exact hinit.symm
      · simp only [Pos.useEffect, hinit, hm, if_true, Prod.mk.injEq,
          Option.some.injEq] at hc
        obtain ⟨hinst, -⟩ := hc
        subst hinst
        first
        | rfl
        | exact hinit.symm
      · by_cases hdep : depsChanged deps dep₂
        · rcases c₂ with _ | c <;>
            · simp only [Pos.useEffect, hinit, hm, hdep, if_true, Prod.mk.injEq,
                Option.some.injEq] at hc
              obtain ⟨hinst, -⟩ := hc
              subst hinst
              first
              | rfl
              | exact hinit.symm
        · simp only [Pos.useEffect, hinit, hm, hdep, Bool.false_eq_true, if_false,
            if_true, Prod.mk.injEq, Option.some.injEq] at hc
          obtain ⟨hinst, -⟩ := hc
          subst hinst
          first
          | rfl
          | exact hinit.symm
  · simp only [Pos.useEffect, hinit, Bool.false_eq_true, if_false, Prod.mk.injEq,
      Option.some.injEq] at hc
    obtain ⟨hinst, -⟩ := hc
    subst hinst
    first
    | rfl
    | exact (by simpa using hinit : inst.initialized = false).symm

theorem pRun_initialized :
    ∀ (p : Pos.Prog V) (inst : Pos.Instance V) (tr : List (Event V)),
      (Pos.runComponent p inst tr).inst.initialized = inst.initialized := by
  intro p
  induction p with
  | ret => intro inst tr; rfl
  | throwErr => intro inst tr; rfl
  | emit v p ih => intro inst tr; exact ih inst _
  | useState init k ih =>
    intro inst tr
    rcases hc : Pos.useState init (some inst) with ⟨i₀, res⟩
    rcases i₀ with _ | inst'
    · simp only [Pos.runComponent, hc]
    · rcases res with e | ⟨v, sid⟩ <;> simp only [Pos.runComponent, hc]
      · exact pUseState_initialized hc
      · exact (ih v inst' tr).trans (pUseState_initialized hc)
  | useMemo fnId fn deps k ih =>
    intro inst tr
    rcases hc : Pos.useMemo fnId fn deps (some inst) tr with ⟨i₀, tr', res⟩
    rcases i₀ with _ | inst'
    · simp only [Pos.runComponent, hc]
    · rcases res with e | v <;> simp only [Pos.runComponent, hc]
      · exact pUseMemo_initialized hc
      · exact (ih v inst' tr').trans (pUseMemo_initialized hc)
  | useEffect fnId cid deps p ih =>
    intro inst tr
    rcases hc : Pos.useEffect fnId cid deps (some inst) tr with ⟨i₀, tr', res⟩
    rcases i₀ with _ | inst'
    · simp only [Pos.runComponent, hc]
    · rcases res with e | u <;> simp only [Pos.runComponent, hc]
      · exact pUseEffect_initialized hc
      · exact (ih inst' tr').trans (pUseEffect_initialized hc)

theorem kUseState_initialized {inst inst' : Keyed.Instance V} {key : String}
    {init : InitialValue V} {v : V} {sid : Nat}
    (hc : Keyed.useState key init (some inst) = .ok (v, sid, inst')) :
    inst'.initialized = inst.initialized := by
  rcases hm : Keyed.mapGet inst.hookState key with _ | ⟨a, d⟩
  · simp only [Keyed.useState, hm, Except.ok.injEq, Prod.mk.injEq] at hc
    rw [← hc.2.2]
  · rcases d with _ | _ | _
    · simp only [Keyed.useState, hm, Except.ok.injEq, Prod.mk.injEq] at hc
      rw [← hc.2.2]
    · simp [Keyed.useState, hm] at hc
    · simp [Keyed.useState, hm] at hc

theorem kUseMemo_initialized {inst inst' : Keyed.Instance V} {key : String}
    {fnId : Nat} {fn : Unit → V} {deps : List V} {v : V} {tr tr' : List (Event V)}
    (hc : Keyed.useMemo key fnId fn deps (some inst) tr = .ok (v, inst', tr')) :
    inst'.initialized = inst.initialized := by
  rcases hm : Keyed.mapGet inst.hookState key with _ | ⟨a, d⟩
  · simp only [Keyed.useMemo, hm, Except.ok.injEq, Prod.mk.injEq] at hc
    rw [← hc.2.1]
  · rcases d with _ | ⟨v₂, dep₂⟩ | _
    · simp [Keyed.useMemo, hm] at hc
    · by_cases hdep : depsChanged deps dep₂ <;>
        · simp only [Keyed.useMemo, hm, hdep, Bool.false_eq_true, if_false, if_true,
            Except.ok.injEq, Prod.mk.injEq] at hc
          rw [← hc.2.1]
    · simp [Keyed.useMemo, hm] at hc

theorem kUseEffect_initialized {inst inst' : Keyed.Instance V} {key : String}
    {fnId : Nat} {cid : Option Nat} {deps : List V} {tr tr' : List (Event V)}
    (hc : Keyed.useEffect key fnId cid deps (some inst) tr = .ok (inst', tr')) :
    inst'.initialized = inst.initialized := by
  rcases hm : Keyed.mapGet inst.hookState key with _ | ⟨a, d⟩
  · simp only [Keyed.useEffect, hm, Except.ok.injEq, Prod.mk.injEq] at hc
    rw [← hc.1]
  · rcases d with _ | _ | ⟨c₂, dep₂⟩
    · simp [Keyed.useEffect, hm] at hc
    · simp [Keyed.useEffect, hm] at hc
    · by_cases hdep : depsChanged deps dep₂
      · rcases c₂ with _ | c <;>
          · simp only [Keyed.useEffect, hm, hdep, if_true, Except.ok.injEq,
              Prod.mk.injEq] at hc
            rw [← hc.1]
      · simp only [Keyed.useEffect, hm, hdep, Bool.false_eq_true, if_false,
          Except.ok.injEq, Prod.mk.injEq] at hc
        rw [← hc.1]

theorem kRun_initialized :
    ∀ (p : Keyed.Prog V) (inst : Keyed.Instance V) (tr : List (Event V)),
      (Keyed.runComponent p inst tr).inst.initialized = inst.initialized := by
  intro p
  induction p with
  | ret => intro inst tr; rfl
  | throwErr => intro inst tr; rfl
  | emit v p ih => intro inst tr; exact ih inst _
  | useState key init k ih =>
    intro inst tr
    rcases hc : Keyed.useState key init (some inst) with e | ⟨v, sid, inst'⟩ <;>
      simp only [Keyed.runComponent, hc]
    exact (ih v inst' tr).trans (kUseState_initialized hc)
  | useMemo key fnId fn deps k ih =>
    intro inst tr
    rcases hc : Keyed.useMemo key fnId fn deps (some inst) tr with e | ⟨v, inst', tr'⟩ <;>
      simp only [Keyed.runComponent, hc]
    exact (ih v inst' tr').trans (kUseMemo_initialized hc)
  | useEffect key fnId cid deps p ih =>
    intro inst tr
    rcases hc : Keyed.useEffect key fnId cid deps (some inst) tr with e | ⟨inst', tr'⟩ <;>
      simp only [Keyed.runComponent, hc]
    exact (ih inst' tr').trans (kUseEffect_initialized hc)

theorem pRender_initialized (inst : Pos.Instance V) (prev : Option Nat)
    (tr : List (Event V)) :
    (Pos.render inst prev tr).inst.initialized = inst.initialized := by
  simp only [Pos.render]
  rcases herr : (Pos.runComponent inst.Component { inst with hookStateIndex := 0 }
      (tr ++ [Event.renderStart inst.id])).err with _ | e <;> simp only [herr] <;>
    exact pRun_initialized inst.Component _ _

theorem kRender_initialized (inst : Keyed.Instance V) (prev : Option Nat)
    (tr : List (Event V)) :
    (Keyed.render inst prev tr).inst.initialized = inst.initialized := by
  simp only [Keyed.render]
  rcases herr : (Keyed.runComponent inst.Component (Keyed.setInactive inst)
      (tr ++ [Event.renderStart inst.id])).err with _ | e <;> simp only [herr] <;>
    exact kRun_initialized inst.Component _ _

/-- C7 amended: in both variants `mount` allocates a fresh instance with
empty slot storage, performs exactly one synchronous render before
returning, and returns the unmount callback closed over this instance.
Only the positional variant maintains the `initialized` flag — false at
allocation and set to true once the first render completes (left false when
the render throws, since the exception escapes `mount` before the
assignment); the keyed variant's instance carries no `initialized` property
at all, so it reads as `undefined` both before and after the render. -/
theorem c7_mount_single_render (V : Type) [DecidableEq V] :
    (∀ (comp : Pos.Prog V) (id : Nat) (prev : Option Nat) (tr : List (Event V)),
      renderCount (Pos.mount comp id prev tr).tr id = renderCount tr id + 1 ∧
      ((Pos.mount comp id prev tr).err = none →
        (Pos.mount comp id prev tr).inst.initialized = true) ∧
      ((Pos.mount comp id prev tr).err ≠ none →
        (Pos.mount comp id prev tr).inst.initialized = false)) ∧
    (∀ (comp : Keyed.Prog V) (id : Nat) (prev : Option Nat) (tr : List (Event V)),
      renderCount (Keyed.mount comp id prev tr).tr id = renderCount tr id + 1 ∧
      (Keyed.mount comp id prev tr).inst.initialized = none) := by
  constructor
  · intro comp id prev tr
    rcases herr : (Pos.render (⟨id, comp, false, 0, [], 0⟩ : Pos.Instance V) prev tr).err
      with _ | e
    · have htr : (Pos.mount comp id prev tr).tr
          = (Pos.render (⟨id, comp, false, 0, [], 0⟩ : Pos.Instance V) prev tr).tr := by
        simp [Pos.mount, herr]
      have herrM : (Pos.mount comp id prev tr).err = none := by
        simp [Pos.mount, herr]
      have hinitM : (Pos.mount comp id prev tr).inst.initialized = true := by
        simp [Pos.mount, herr]
      refine ⟨?_, fun _ => hinitM, fun hne => absurd herrM hne⟩
      rw [htr]
      exact pRender_renderCount (⟨id, comp, false, 0, [], 0⟩ : Pos.Instance V) prev tr
    · have htr : (Pos.mount comp id prev tr).tr
          = (Pos.render (⟨id, comp, false, 0, [], 0⟩ : Pos.Instance V) prev tr).tr := by
        simp [Pos.mount, herr]
      have herrM : (Pos.mount comp id prev tr).err = some e := by
        simp [Pos.mount, herr]
      have hinitM : (Pos.mount comp id prev tr).inst.initialized = false := by
        have : (Pos.mount comp id prev tr).inst
            = (Pos.render (⟨id, comp, false, 0, [], 0⟩ : Pos.Instance V) prev tr).inst := by
          simp [Pos.mount, herr]
        rw [this, pRender_initialized]
      refine ⟨?_, fun habs => absurd habs (by rw [herrM]; exact fun h => by cases h),
        fun _ => hinitM⟩
      rw [htr]
      exact pRender_renderCount (⟨id, comp, false, 0, [], 0⟩ : Pos.Instance V) prev tr
  · intro comp id prev tr
    exact ⟨kRender_renderCount (⟨id, comp, [], none, 0⟩ : Keyed.Instance V) prev tr,
      kRender_initialized (⟨id, comp, [], none, 0⟩ : Keyed.Instance V) prev tr⟩

/-- C7 witness: mounting the trivial component at a concrete input records
exactly one render and yields `initialized = true` (positional) and
`initialized = undefined` (keyed). -/
theorem c7_mount_single_render_witness :
    renderCount (Pos.mount (V := Nat) .ret 3 none []).tr 3 = renderCount ([] : List (Event Nat)) 3 + 1 ∧
    (Pos.mount (V := Nat) .ret 3 none []).inst.initialized = true ∧
    renderCount (Keyed.mount (V := Nat) .ret 4 none []).tr 4 = renderCount ([] : List (Event Nat)) 4 + 1 ∧
    (Keyed.mount (V := Nat) .ret 4 none []).inst.initialized = none := by
  have hp := (c7_mount_single_render Nat).1 .ret 3 none []
  have hk := (c7_mount_single_render Nat).2 .ret 4 none []
  exact ⟨hp.1, hp.2.1 rfl, hk.1, hk.2⟩

/-! ### Claim C6 -/

/-- C6: invoking the `setValue` closure of a keyed state slot that is
inactive (its key was not requested during the most recent render) with a
strictly differing computed value replaces only that slot's stored value —
the map is otherwise untouched, the trace gains no event, no render occurs,
and the active-instance pointer is untouched — and the retained value is
what the next `useState` request for that key returns. -/
theorem c6_inactive_setter_inert (V : Type) [DecidableEq V] :
    ∀ (inst : Keyed.Instance V) (key : String) (w : V) (sid : Nat)
      (setter : SetterArg V) (prev : Option Nat) (tr : List (Event V)),
      Keyed.mapGet inst.hookState key = some ⟨false, .state w sid⟩ →
      setter.eval w ≠ w →
      Keyed.setValue inst key setter prev tr
        = ⟨{ inst with hookState :=
               Keyed.mapReplace inst.hookState key ⟨false, .state (setter.eval w) sid⟩ },
           prev, tr, none⟩ ∧
      (∀ init : InitialValue V, ∃ inst',
        Keyed.useState key init (some (Keyed.setValue inst key setter prev tr).inst)
          = .ok (setter.eval w, sid, inst')) := by
  intro inst key w sid setter prev tr hm hne
  have hval : Keyed.setValue inst key setter prev tr
      = ⟨{ inst with hookState :=
             Keyed.mapReplace inst.hookState key ⟨false, .state (setter.eval w) sid⟩ },
         prev, tr, none⟩ := by
    have hne' : ¬(w = setter.eval w) := fun h => hne h.symm
    simp [Keyed.setValue, hm, hne']
  refine ⟨hval, fun init => ?_⟩
  have hget : Keyed.mapGet (Keyed.setValue inst key setter prev tr).inst.hookState key
      = some ⟨false, .state (setter.eval w) sid⟩ := by
    rw [hval]
    exact kMapGet_replace_self _ hm
  exact ⟨{ (Keyed.setValue inst key setter prev tr).inst with
            hookState := Keyed.mapReplace
              (Keyed.setValue inst key setter prev tr).inst.hookState key
              ⟨true, Keyed.SlotData.state (setter.eval w) sid⟩ },
    by simp [Keyed.useState, hget]⟩

/-- A keyed instance holding an inactive state slot "a" with value 1 and
setter identity 0. -/
def inactiveInstance : Keyed.Instance Nat :=
  ⟨0, .ret, [("a", ⟨false, .state 1 0⟩)], none, 1⟩

/-- C6 witness: setting 5 through the setter of the inactive slot "a" of
`inactiveInstance` silently retains 5 without rendering, and the next
`useState` request for "a" returns 5. -/
theorem c6_inactive_setter_inert_witness :
    Keyed.setValue inactiveInstance "a" (.val 5) none []
      = ⟨{ inactiveInstance with hookState := [("a", ⟨false, .state 5 0⟩)] },
         none, [], none⟩ ∧
    ∃ inst', Keyed.useState "a" (.val 0)
        (some (Keyed.setValue inactiveInstance "a" (.val 5) none []).inst)
      = .ok (5, 0, inst') := by
  have h := c6_inactive_setter_inert Nat inactiveInstance "a" 1 0 (.val 5) none []
    rfl (by decide)
  exact ⟨h.1.trans (by rfl), h.2 (.val 0)⟩

/-! ### Claim C1 -/

/-- The conditional component of the C1 counterexample: requests state slot
"a" only while state slot "c" holds 1, then logs the value of "a" (mirrors
the conditional-hook components of the repository's tests). -/
def condProg : Keyed.Prog Nat :=
  .useState "c" (.val 1) fun c =>
    if c = 1 then .useState "a" (.val 10) fun a => .emit a .ret else .ret

/-- Mount the conditional component (both slots active, "a" holds 10). -/
def condMount : Keyed.RenderResult Nat := Keyed.mount condProg 0 none []

/-- Set "c" to 0: the re-render skips "a", leaving it inactive but retained. -/
def condHide : Keyed.RenderResult Nat :=
  Keyed.setValue condMount.inst "c" (.val 0) none condMount.tr

/-- Call the captured setter of the now-inactive "a" with 99, outside any
render. -/
def condSet : Keyed.RenderResult Nat :=
  Keyed.setValue condHide.inst "a" (.val 99) none condHide.tr

/-- C1 counterexample: after mounting `condProg` and hiding slot "a", its
setter called outside any render with 99 (strictly different from the
stored 10) updates the slot but triggers no re-render — the trace is
unchanged at two renders — contradicting the claim that every such call
re-renders exactly once. -/
theorem c1_inactive_setter_counterexample :
    Keyed.stateOf condHide.inst "a" = some 10 ∧
    Keyed.stateOf condSet.inst "a" = some 99 ∧
    renderCount condHide.tr 0 = 2 ∧
    renderCount condSet.tr 0 = renderCount condHide.tr 0 := by
  exact ⟨rfl, rfl, rfl, rfl⟩

/-- C1 amended: a `setValue` call made outside any in-progress render whose
computed new value (literal argument, or functional update applied to the
current value) differs strictly from the stored value updates the slot and
synchronously re-renders the owning instance exactly once, after which the
slot holds the set value — provided, in the keyed variant, that the slot is
active (was requested in the most recent render); an inactive keyed slot is
updated without a re-render (claim C6).  Positional slots always re-render.
If the computed value equals the stored value, nothing at all changes. -/
theorem c1_setValue_rerender (V : Type) [DecidableEq V] :
    (∀ (inst : Keyed.Instance V) (key : String) (w : V) (sid : Nat)
        (setter : SetterArg V) (prev : Option Nat) (tr : List (Event V)),
      Keyed.mapGet inst.hookState key = some ⟨true, .state w sid⟩ →
      (setter.eval w ≠ w →
        Keyed.stateOf (Keyed.setValue inst key setter prev tr).inst key
          = some (setter.eval w) ∧
        renderCount (Keyed.setValue inst key setter prev tr).tr inst.id
          = renderCount tr inst.id + 1) ∧
      (setter.eval w = w →
        Keyed.setValue inst key setter prev tr = ⟨inst, prev, tr, none⟩)) ∧
    (∀ (inst : Pos.Instance V) (i : Nat) (w : V) (sid : Nat)
        (setter : SetterArg V) (prev : Option Nat) (tr : List (Event V)),
      inst.hookState[i]? = some (.state w sid) →
      (setter.eval w ≠ w →
        Pos.stateOf (Pos.setValue inst i setter prev tr).inst i
          = some (setter.eval w) ∧
        renderCount (Pos.setValue inst i setter prev tr).tr inst.id
          = renderCount tr inst.id + 1) ∧
      (setter.eval w = w →
        Pos.setValue inst i setter prev tr = ⟨inst, prev, tr, none⟩)) := by
  constructor
  · intro inst key w sid setter prev tr hm
    constructor
    · intro hne
      have hne' : ¬(w = setter.eval w) := fun h => hne h.symm
      have hval : Keyed.setValue inst key setter prev tr
          = Keyed.render
              { inst with hookState :=
                  Keyed.mapReplace inst.hookState key ⟨true, .state (setter.eval w) sid⟩ }
              prev tr := by
        simp [Keyed.setValue, hm, hne']
      rw [hval]
      constructor
      · obtain ⟨a', hres⟩ := @kRender_state_stable V _
          { inst with hookState :=
              Keyed.mapReplace inst.hookState key ⟨true, .state (setter.eval w) sid⟩ }
          key true (setter.eval w) sid prev tr (kMapGet_replace_self _ hm)
        simp [Keyed.stateOf, hres]
      · exact kRender_renderCount _ prev tr
    · intro heq
      simp only [Keyed.setValue, hm]
      rw [if_pos heq.symm]
  · intro inst i w sid setter prev tr hm
    constructor
    · intro hne
      have hne' : ¬(w = setter.eval w) := fun h => hne h.symm
      have hval : Pos.setValue inst i setter prev tr
          = Pos.render
              { inst with hookState := inst.hookState.set i (.state (setter.eval w) sid) }
              prev tr := by
        simp [Pos.setValue, hm, hne']
      rw [hval]
      constructor
      · have hset : ({ inst with
              hookState := inst.hookState.set i (.state (setter.eval w) sid) }
                : Pos.Instance V).hookState[i]?
            = some (.state (setter.eval w) sid) := by
          show (inst.hookState.set i _)[i]? = _
          rw [List.getElem?_set_self', hm]
          rfl
        have hres := pRender_state_stable prev tr hset
        simp [Pos.stateOf, hres]
      · exact pRender_renderCount _ prev tr
    · intro heq
      simp only [Pos.setValue, hm]
      rw [if_pos heq.symm]

/-- A keyed and a positional instance, each holding a single active state
slot with value 0 and setter identity 0, plus the matching component. -/
def activeInstance : Keyed.Instance Nat :=
  ⟨0, .useState "a" (.val 0) fun _ => .ret, [("a", ⟨true, .state 0 0⟩)], none, 1⟩

/-- Positional counterpart of `activeInstance`. -/
def activeInstanceP : Pos.Instance Nat :=
  ⟨0, .useState (.val 0) fun _ => .ret, true, 1, [.state 0 0], 1⟩

/-- C1 witness: on both concrete instances, setting 5 stores 5 and renders
exactly once more, while setting the current 0 changes nothing. -/
theorem c1_setValue_rerender_witness :
    Keyed.stateOf (Keyed.setValue activeInstance "a" (.val 5) none []).inst "a" = some 5 ∧
    renderCount (Keyed.setValue activeInstance "a" (.val 5) none []).tr 0 = 1 ∧
    Keyed.setValue activeInstance "a" (.val 0) none [] = ⟨activeInstance, none, [], none⟩ ∧
    Pos.stateOf (Pos.setValue activeInstanceP 0 (.val 5) none []).inst 0 = some 5 ∧
    renderCount (Pos.setValue activeInstanceP 0 (.val 5) none []).tr 0 = 1 ∧
    Pos.setValue activeInstanceP 0 (.val 0) none [] = ⟨activeInstanceP, none, [], none⟩ := by
  have hk := (c1_setValue_rerender Nat).1 activeInstance "a" 0 0 (.val 5) none [] rfl
  have hk0 := (c1_setValue_rerender Nat).1 activeInstance "a" 0 0 (.val 0) none [] rfl
  have hp := (c1_setValue_rerender Nat).2 activeInstanceP 0 0 0 (.val 5) none [] rfl
  have hp0 := (c1_setValue_rerender Nat).2 activeInstanceP 0 0 0 (.val 0) none [] rfl
  exact ⟨(hk.1 (by decide)).1, (hk.1 (by decide)).2, hk0.2 rfl,
    (hp.1 (by decide)).1, (hp.1 (by decide)).2, hp0.2 rfl⟩

/-! ### Claim C10 -/

/-- C10: the `setValue` closure of a state slot is created exactly once,
when the slot is allocated (it receives a fresh identity from the
allocation counter), and no later operation replaces it: across any render
— whatever hook calls the body makes, including the keyed variant's
inactive-slot sweep — and across any `setValue` call, the slot remains a
state slot carrying the same setter identity, in both variants. -/
theorem c10_setter_identity_stable (V : Type) [DecidableEq V] :
    (∀ (inst : Keyed.Instance V) (key : String) (a : Bool) (w : V) (sid : Nat),
      Keyed.mapGet inst.hookState key = some ⟨a, .state w sid⟩ →
      (∀ (prev : Option Nat) (tr : List (Event V)), ∃ a' w',
        Keyed.mapGet (Keyed.render inst prev tr).inst.hookState key
          = some ⟨a', .state w' sid⟩) ∧
      (∀ (key₂ : String) (setter : SetterArg V) (prev : Option Nat)
          (tr : List (Event V)), ∃ a' w',
        Keyed.mapGet (Keyed.setValue inst key₂ setter prev tr).inst.hookState key
          = some ⟨a', .state w' sid⟩)) ∧
    (∀ (inst : Pos.Instance V) (i : Nat) (w : V) (sid : Nat),
      inst.hookState[i]? = some (.state w sid) →
      (∀ (prev : Option Nat) (tr : List (Event V)), ∃ w',
        (Pos.render inst prev tr).inst.hookState[i]? = some (.state w' sid)) ∧
      (∀ (j : Nat) (setter : SetterArg V) (prev : Option Nat)
          (tr : List (Event V)), ∃ w',
        (Pos.setValue inst j setter prev tr).inst.hookState[i]?
          = some (.state w' sid))) := by
  constructor
  · intro inst key a w sid hm
    constructor
    · intro prev tr
      obtain ⟨a', hres⟩ := kRender_state_stable prev tr hm
      exact ⟨a', w, hres⟩
    · intro key₂ setter prev tr
      rcases hm₂ : Keyed.mapGet inst.hookState key₂ with _ | ⟨a₂, d₂⟩
      · have hval : Keyed.setValue inst key₂ setter prev tr = ⟨inst, prev, tr, none⟩ := by
          simp [Keyed.setValue, hm₂]
        rw [hval]
        exact ⟨a, w, hm⟩
      · rcases d₂ with ⟨w₂, sid₂⟩ | _ | _
        · by_cases heq : w₂ = setter.eval w₂
          · have hval : Keyed.setValue inst key₂ setter prev tr = ⟨inst, prev, tr, none⟩ := by
              simp only [Keyed.setValue, hm₂]
              rw [if_pos heq]
            rw [hval]
            exact ⟨a, w, hm⟩
          · have hval : Keyed.setValue inst key₂ setter prev tr
                = (if a₂ then Keyed.render
                    { inst with hookState :=
                        Keyed.mapReplace inst.hookState key₂ ⟨a₂, .state (setter.eval w₂) sid₂⟩ }
                    prev tr
                  else ⟨{ inst with hookState :=
                        Keyed.mapReplace inst.hookState key₂ ⟨a₂, .state (setter.eval w₂) sid₂⟩ },
                      prev, tr, none⟩) := by
              simp only [Keyed.setValue, hm₂]
              rw [if_neg heq]
            have hafter : Keyed.mapGet
                (Keyed.mapReplace inst.hookState key₂ ⟨a₂, .state (setter.eval w₂) sid₂⟩) key
                = some ⟨a, .state w sid⟩ ∨
              Keyed.mapGet
                (Keyed.mapReplace inst.hookState key₂ ⟨a₂, .state (setter.eval w₂) sid₂⟩) key
                = some ⟨a₂, .state (setter.eval w₂) sid⟩ := by
              by_cases hkey : key₂ = key
              · subst hkey
                rw [hm] at hm₂
                injection hm₂ with hm₂
                obtain ⟨ha, hw, hs⟩ : a = a₂ ∧ w = w₂ ∧ sid = sid₂ := by
                  simpa [Keyed.Slot.mk.injEq, Keyed.SlotData.state.injEq] using hm₂
                subst hs
                exact Or.inr (kMapGet_replace_self _ hm)
              · exact Or.inl ((kMapGet_replace_other
                  (fun hh => hkey hh.symm) _).trans hm)
            rw [hval]
            cases a₂
            · rw [if_neg (by simp)]
              rcases hafter with h | h
              · exact ⟨a, w, h⟩
              · exact ⟨false, setter.eval w₂, h⟩
            · rw [if_pos rfl]
              rcases hafter with h | h
              · obtain ⟨a', hres⟩ := @kRender_state_stable V _
                  { inst with hookState :=
                      Keyed.mapReplace inst.hookState key₂ ⟨true, .state (setter.eval w₂) sid₂⟩ }
                  key a w sid prev tr h
                exact ⟨a', w, hres⟩
              · obtain ⟨a', hres⟩ := @kRender_state_stable V _
                  { inst with hookState :=
                      Keyed.mapReplace inst.hookState key₂ ⟨true, .state (setter.eval w₂) sid₂⟩ }
                  key true (setter.eval w₂) sid prev tr h
                exact ⟨a', setter.eval w₂, hres⟩
        · have hval : Keyed.setValue inst key₂ setter prev tr = ⟨inst, prev, tr, none⟩ := by
            simp [Keyed.setValue, hm₂]
          rw [hval]
          exact ⟨a, w, hm⟩
        · have hval : Keyed.setValue inst key₂ setter prev tr = ⟨inst, prev, tr, none⟩ := by
            simp [Keyed.setValue, hm₂]
          rw [hval]
          exact ⟨a, w, hm⟩
  · intro inst i w sid hm
    constructor
    · intro prev tr
      exact ⟨w, pRender_state_stable prev tr hm⟩
    · intro j setter prev tr
      rcases hm₂ : inst.hookState[j]? with _ | s
      · have hval : Pos.setValue inst j setter prev tr = ⟨inst, prev, tr, none⟩ := by
          simp [Pos.setValue, hm₂]
        rw [hval]
        exact ⟨w, hm⟩
      · rcases s with ⟨w₂, sid₂⟩ | _ | _
        · by_cases heq : w₂ = setter.eval w₂
          · have hval : Pos.setValue inst j setter prev tr = ⟨inst, prev, tr, none⟩ := by
              simp only [Pos.setValue, hm₂]
              rw [if_pos heq]
            rw [hval]
            exact ⟨w, hm⟩
          · have hval : Pos.setValue inst j setter prev tr
                = Pos.render
                    { inst with hookState :=
                        inst.hookState.set j (.state (setter.eval w₂) sid₂) }
                    prev tr := by
              simp only [Pos.setValue, hm₂]
              rw [if_neg heq]
            rw [hval]
            by_cases hij : j = i
            · subst hij
              rw [hm] at hm₂
              injection hm₂ with hm₂
              obtain ⟨hw, hs⟩ : w = w₂ ∧ sid = sid₂ := by
                simpa [Pos.Slot.state.injEq] using hm₂
              subst hs
              have hset : (inst.hookState.set j (Pos.Slot.state (setter.eval w₂) sid))[j]?
                  = some (Pos.Slot.state (setter.eval w₂) sid) := by
                rw [List.getElem?_set_self', hm]
                rfl
              exact ⟨setter.eval w₂, @pRender_state_stable V _
                { inst with hookState := inst.hookState.set j (.state (setter.eval w₂) sid) }
                j (setter.eval w₂) sid prev tr hset⟩
            · have hset : (inst.hookState.set j (Pos.Slot.state (setter.eval w₂) sid₂))[i]?
                  = some (Pos.Slot.state w sid) := by
                rw [List.getElem?_set_ne hij]
                exact hm
              exact ⟨w, @pRender_state_stable V _
                { inst with hookState := inst.hookState.set j (.state (setter.eval w₂) sid₂) }
                i w sid prev tr hset⟩
        · have hval : Pos.setValue inst j setter prev tr = ⟨inst, prev, tr, none⟩ := by
            simp [Pos.setValue, hm₂]
          rw [hval]
          exact ⟨w, hm⟩
        · have hval : Pos.setValue inst j setter prev tr = ⟨inst, prev, tr, none⟩ := by
            simp [Pos.setValue, hm₂]
          rw [hval]
          exact ⟨w, hm⟩
/-- C10 witness: on the concrete instances with one active state slot
(setter identity 0), both a full render and a value-changing `setValue`
call leave the slot a state slot with setter identity 0. -/
theorem c10_setter_identity_stable_witness :
    (∃ a' w', Keyed.mapGet (Keyed.render activeInstance none []).inst.hookState "a"
      = some ⟨a', .state w' 0⟩) ∧
    (∃ a' w', Keyed.mapGet
        (Keyed.setValue activeInstance "a" (.val 5) none []).inst.hookState "a"
      = some ⟨a', .state w' 0⟩) ∧
    (∃ w', (Pos.render activeInstanceP none []).inst.hookState[0]?
      = some (.state w' 0)) ∧
    (∃ w', (Pos.setValue activeInstanceP 0 (.val 5) none []).inst.hookState[0]?
      = some (.state w' 0)) := by
  have hk := (c10_setter_identity_stable Nat).1 activeInstance "a" true 0 0 rfl
  have hp := (c10_setter_identity_stable Nat).2 activeInstanceP 0 0 0 rfl
  exact ⟨hk.1 none [], hk.2 "a" (.val 5) none [], hp.1 none [], hp.2 0 (.val 5) none []⟩

end Hooks
